import Mathlib

/-!
Verification of the scenario domain engine of the endpoint-selection
repository: entity model, weight-locking services, scoring services, audit
log, analysis algorithms (totals, leaderboard, delta-to-winner,
sensitivity) and the JSON persistence layer.

The Python source is embedded shallowly:

* Python `int`/`float` arithmetic over scores and weights is modelled with
  `ℚ` (scores `raw` are `Nat`); all arithmetic in the engine is exact on
  the inputs exercised here.
* `datetime.now()` is modelled by an explicit `now : Nat` argument threaded
  into every operation that stamps an audit event; domain exceptions are
  modelled by `Except Err`; the error messages carried by the Python
  exceptions are abstracted away, only the error class is kept.
* Python dict construction/lookup (`{c.id: c.weight ...}.get(k, d)`) is
  modelled by last-binding-wins association lookup, matching dict
  insertion-order overwrite semantics.
* `list.sort(key=·total, reverse=True)` is a stable sort by descending
  total.  A stable sort by a total, transitive key comparison has a unique
  result (sorted, ties in input order), so it is embedded by
  `List.insertionSort` with the relation `lbGE`, which Mathlib proves
  sorted, a permutation, and stable.
* the filesystem used by the JSON repository is modelled as an association
  list from paths to JSON documents.
-/

namespace EndpointSel

/-! ### Entity model (src/domain/models.py) -/

/-- High and low anchors for a criterion. -/
structure Anchors where
  hi : String
  lo : String
deriving DecidableEq, Repr

/-- A scoring criterion.  `weight` is an `int ≥ 0` in the source; it is
modelled by `ℚ` because `AnalysisService.sensitivity` builds derived
criteria whose weight is a float (`model_copy` bypasses validation). -/
structure Criterion where
  id : String
  name : String
  weight : ℚ
  anchors : Anchors
  active : Bool
deriving DecidableEq, Repr

/-- An option/alternative to be scored (`Option` in the source; renamed to
avoid clashing with Lean's `Option`). -/
structure OptionItem where
  id : String
  name : String
  notes : Option String
deriving DecidableEq, Repr

/-- A score of one option on one criterion; `raw` is validated into `[1,5]`
at the service and model boundary. -/
structure Score where
  optionId : String
  criterionId : String
  raw : Nat
  rationale : Option String
deriving DecidableEq, Repr

/-- A value appearing in an audit event's `details` mapping. -/
inductive DVal where
  | str (v : String)
  | int (v : Int)
  | null
deriving DecidableEq, Repr

/-- An audit event; `ts` abstracts the wall-clock timestamp. -/
structure AuditEvent where
  ts : Nat
  actor : String
  type : String
  details : List (String × DVal)
deriving DecidableEq, Repr

inductive RationalePolicy where
  | required
  | optional
  | skippable
deriving DecidableEq, Repr

inductive FlowDefault where
  | by_criterion
  | by_option
deriving DecidableEq, Repr

/-- Scenario settings. -/
structure Settings where
  rationalePolicy : RationalePolicy
  flowDefault : FlowDefault
  sensitivityStep : ℚ
deriving DecidableEq, Repr

/-- The scenario aggregate root. -/
structure Scenario where
  id : String
  title : String
  createdAt : Nat
  modifiedAt : Nat
  weightsLocked : Bool
  criteria : List Criterion
  options : List OptionItem
  scores : List Score
  settings : Settings
  audit : List AuditEvent
deriving DecidableEq, Repr

/-! ### Error taxonomy (src/domain/errors.py); messages abstracted. -/

inductive Err where
  | validation
  | notFound
  | state
  | locked
  | io
deriving DecidableEq, Repr

/-! ### Policies (src/domain/policies.py) -/

def can_lock_weights (s : Scenario) : Bool := !s.weightsLocked

def can_unlock_weights (s : Scenario) : Bool := s.weightsLocked

def is_rationale_required (st : Settings) : Bool :=
  st.rationalePolicy = RationalePolicy.required

def is_rationale_skippable (st : Settings) : Bool :=
  st.rationalePolicy = RationalePolicy.optional ∨
    st.rationalePolicy = RationalePolicy.skippable

/-! ### Audit service (src/services/audit_service.py) -/

/-- `AuditService.log_event`: append one event to the audit list. -/
def log_event (s : Scenario) (now : Nat) (actor : String) (eventType : String)
    (details : List (String × DVal)) : Scenario :=
  { s with audit := s.audit ++ [⟨now, actor, eventType, details⟩] }

/-- `AuditService.log_score_change`. -/
def log_score_change (s : Scenario) (now : Nat) (actor : String)
    (optionId criterionId : String) (oldValue : Option Nat) (newValue : Nat) :
    Scenario :=
  log_event s now actor "score_changed"
    [("optionId", DVal.str optionId),
     ("criterionId", DVal.str criterionId),
     ("oldValue", oldValue.elim DVal.null (fun n => DVal.int n)),
     ("newValue", DVal.int newValue)]

/-- `AuditService.log_weight_change`. -/
def log_weight_change (s : Scenario) (now : Nat) (actor : String)
    (criterionId : String) (oldWeight newWeight : ℚ) (reason : String) :
    Scenario :=
  log_event s now actor "weight_changed"
    [("criterionId", DVal.str criterionId),
     ("oldWeight", DVal.str (toString oldWeight)),
     ("newWeight", DVal.str (toString newWeight)),
     ("reason", DVal.str reason)]

/-- `AuditService.log_weights_locked`. -/
def log_weights_locked (s : Scenario) (now : Nat) (actor : String) : Scenario :=
  log_event s now actor "weights_locked" []

/-- `AuditService.log_weights_unlocked`. -/
def log_weights_unlocked (s : Scenario) (now : Nat) (actor : String)
    (reason : String) : Scenario :=
  log_event s now actor "weights_unlocked" [("reason", DVal.str reason)]

/-! ### Scoring service (src/services/scoring_service.py) -/

/-- The loop in `ScoringService.set_score` that finds the first score for
the `(optionId, criterionId)` pair and replaces it in place (keeping the
previous rationale when no new one is supplied); returns the updated list
and the previous raw value, or `none` when no score for the pair exists. -/
def replaceFirstScore (oid cid : String) (raw : Nat)
    (rationale : Option String) : List Score → Option (List Score × Nat)
  | [] => none
  | sc :: rest =>
    if sc.optionId == oid && sc.criterionId == cid then
      some (⟨oid, cid, raw,
        match rationale with
        | some r => some r
        | none => sc.rationale⟩ :: rest, sc.raw)
    else
      (replaceFirstScore oid cid raw rationale rest).map
        (fun q => (sc :: q.1, q.2))

/-- `ScoringService.set_score`. -/
def set_score (s : Scenario) (oid cid : String) (raw : Nat) (actor : String)
    (rationale : Option String) (now : Nat) : Except Err Scenario :=
  if ¬ (1 ≤ raw ∧ raw ≤ 5) then .error .validation
  else if ¬ s.options.any (fun o => o.id == oid) then .error .notFound
  else if ¬ s.criteria.any (fun c => c.id == cid) then .error .notFound
  else
    match replaceFirstScore oid cid raw rationale s.scores with
    | some (newScores, oldRaw) =>
      .ok (log_score_change { s with scores := newScores } now actor oid cid
        (some oldRaw) raw)
    | none =>
      .ok (log_score_change
        { s with scores := s.scores ++ [⟨oid, cid, raw, rationale⟩] }
        now actor oid cid none raw)

/-- The loop in `ScoringService.set_rationale` that updates the rationale of
the first score for the pair, or reports `none` when no score exists. -/
def setRationaleInList (oid cid : String) (rationale : String) :
    List Score → Option (List Score)
  | [] => none
  | sc :: rest =>
    if sc.optionId == oid && sc.criterionId == cid then
      some ({ sc with rationale := some rationale } :: rest)
    else
      (setRationaleInList oid cid rationale rest).map (fun l => sc :: l)

/-- `ScoringService.set_rationale`: no referential check, no audit event;
creates a default score (raw 3) when the pair has no score yet. -/
def set_rationale (s : Scenario) (oid cid : String) (rationale : String)
    (_actor : String) : Except Err Scenario :=
  if 500 < rationale.length then .error .validation
  else
    match setRationaleInList oid cid rationale s.scores with
    | some newScores => .ok { s with scores := newScores }
    | none => .ok { s with scores := s.scores ++ [⟨oid, cid, 3, some rationale⟩] }

/-- Python dict `{c.id: c.weight for c in criteria}.get(cid, 0)`: the last
criterion with a given id wins, default 0. -/
def weightsGet (criteria : List Criterion) (cid : String) : ℚ :=
  match criteria.reverse.find? (fun c => c.id == cid) with
  | some c => c.weight
  | none => 0

/-- The per-option accumulation loop shared by `ScoringService.totals` and
`AnalysisService._calculate_totals`. -/
def optionTotal (s : Scenario) (oid : String) : ℚ :=
  s.scores.foldl
    (fun acc sc =>
      if sc.optionId == oid then acc + sc.raw * weightsGet s.criteria sc.criterionId
      else acc) 0

/-- `max_possible = sum(c.weight * 5 for c in scenario.criteria)`. -/
def maxPossible (s : Scenario) : ℚ :=
  s.criteria.foldl (fun acc c => acc + c.weight * 5) 0

/-- The normalized score of one option. -/
def normalizedOf (s : Scenario) (oid : String) : ℚ :=
  if 0 < maxPossible s then optionTotal s oid / maxPossible s * 100 else 0

/-- One value of the `totals` mapping. -/
structure TotalsRec where
  total : ℚ
  normalized : ℚ
deriving DecidableEq, Repr

/-- `ScoringService.totals` / `AnalysisService._calculate_totals`: the dict
keyed by option id, represented as the association list built in options
order. -/
def calculateTotals (s : Scenario) : List (String × TotalsRec) :=
  s.options.map (fun o => (o.id, ⟨optionTotal s o.id, normalizedOf s o.id⟩))

/-- Python dict lookup with a default on the totals mapping (last binding
wins, matching dict overwrite semantics). -/
def totalsGet (m : List (String × TotalsRec)) (k : String) (d : TotalsRec) :
    TotalsRec :=
  match m.reverse.find? (fun p => p.1 == k) with
  | some p => p.2
  | none => d

/-! ### Weights service (src/services/weights_service.py) -/

/-- `WeightsService.lock_weights`. -/
def lock_weights (s : Scenario) (actor : String) (now : Nat) :
    Except Err Scenario :=
  if ¬ can_lock_weights s then .error .state
  else .ok (log_weights_locked { s with weightsLocked := true } now actor)

/-- `WeightsService.unlock_weights`. -/
def unlock_weights (s : Scenario) (actor : String) (reason : String)
    (now : Nat) : Except Err Scenario :=
  if ¬ can_unlock_weights s then .error .state
  else .ok (log_weights_unlocked { s with weightsLocked := false } now actor reason)

/-- The loop in `WeightsService.set_weight` that replaces the weight of the
first criterion with the given id, returning the new list and the old
weight, or `none` when the id is absent. -/
def setWeightInList (cid : String) (w : ℚ) :
    List Criterion → Option (List Criterion × ℚ)
  | [] => none
  | c :: rest =>
    if c.id == cid then some ({ c with weight := w } :: rest, c.weight)
    else (setWeightInList cid w rest).map (fun q => (c :: q.1, q.2))

/-- `WeightsService.set_weight`. -/
def set_weight (s : Scenario) (cid : String) (w : ℚ) (actor reason : String)
    (now : Nat) : Except Err Scenario :=
  if s.weightsLocked then .error .locked
  else if w < 0 then .error .validation
  else
    match setWeightInList cid w s.criteria with
    | none => .error .notFound
    | some (newCriteria, oldWeight) =>
      .ok (log_weight_change { s with criteria := newCriteria } now actor cid
        oldWeight w reason)

/-- `WeightsService.get_total_weight`. -/
def get_total_weight (s : Scenario) : ℚ :=
  s.criteria.foldl (fun acc c => acc + c.weight) 0

/-! ### Analysis service (src/services/analysis_service.py) -/

/-- A leaderboard entry before rank assignment. -/
structure LBRow where
  optionId : String
  name : String
  total : ℚ
  normalized : ℚ
deriving DecidableEq, Repr

/-- A leaderboard entry after rank assignment. -/
structure LBEntry where
  optionId : String
  name : String
  total : ℚ
  normalized : ℚ
  rank : Nat
deriving DecidableEq, Repr

/-- The unranked, unsorted leaderboard entries, built in options order from
the totals dict (`totals.get(option.id, {"total": 0, "normalized": 0})`). -/
def lbRows (s : Scenario) : List LBRow :=
  s.options.map (fun o =>
    let d := totalsGet (calculateTotals s) o.id ⟨0, 0⟩
    ⟨o.id, o.name, d.total, d.normalized⟩)

/-- The comparison used by `leaderboard.sort(key=·total, reverse=True)`:
descending by total. -/
def lbGE (a b : LBRow) : Prop := b.total ≤ a.total

instance : DecidableRel lbGE := fun a b =>
  inferInstanceAs (Decidable (b.total ≤ a.total))

instance : IsTotal LBRow lbGE := ⟨fun a b => le_total b.total a.total⟩

instance : IsTrans LBRow lbGE := ⟨fun _ _ _ h h2 => le_trans h2 h⟩

/-- The rank-assignment loop of `AnalysisService.leaderboard`:
`current_rank = 1; for i, entry: if i > 0 and entry.total < prev.total:
current_rank = i + 1; entry.rank = current_rank`. -/
def assignRanksAux : Nat → ℚ → Nat → List LBRow → List LBEntry
  | _, _, _, [] => []
  | i, prevTotal, curRank, r :: rs =>
    let rank := if 0 < i ∧ r.total < prevTotal then i + 1 else curRank
    ⟨r.optionId, r.name, r.total, r.normalized, rank⟩ ::
      assignRanksAux (i + 1) r.total rank rs

def assignRanks (rows : List LBRow) : List LBEntry :=
  assignRanksAux 0 0 1 rows

/-- `AnalysisService.leaderboard`.  Python's `list.sort` is a stable sort;
any stable sort by a total transitive comparison has a unique result, so it
is embedded by `List.insertionSort lbGE` (proved sorted, a permutation and
stable in Mathlib). -/
def leaderboard (s : Scenario) : List LBEntry :=
  assignRanks ((lbRows s).insertionSort lbGE)

/-- One option's row of `AnalysisService.contributions`. -/
def contributionsFor (s : Scenario) (oid : String) : List (String × ℚ) × ℚ :=
  s.scores.foldl
    (fun acc sc =>
      if sc.optionId == oid then
        let w := weightsGet s.criteria sc.criterionId
        (acc.1 ++ [(sc.criterionId, sc.raw * w)], acc.2 + sc.raw * w)
      else acc) ([], 0)

/-- `totals.get(option.id, {"total": 0})["total"]` as used by
`delta_to_winner` and `leaderboard`. -/
def optTotalOf (s : Scenario) (o : OptionItem) : ℚ :=
  (totalsGet (calculateTotals s) o.id ⟨0, 0⟩).total

/-- The accumulator step of the winner-finding loop of
`AnalysisService.delta_to_winner`. -/
def winnerStep (s : Scenario) (acc : Option String × ℚ) (o : OptionItem) :
    Option String × ℚ :=
  if acc.2 < optTotalOf s o then (some o.id, optTotalOf s o) else acc

/-- The result of `AnalysisService.delta_to_winner`: the winner id and, per
option in list order, `(optionId, total, delta)`. -/
structure DeltaResult where
  winner : Option String
  entries : List (String × ℚ × ℚ)
deriving DecidableEq, Repr

/-- `AnalysisService.delta_to_winner`. -/
def delta_to_winner (s : Scenario) : DeltaResult :=
  let found := s.options.foldl (winnerStep s) (none, -1)
  let found :=
    match found.1, s.options with
    | none, o :: _ => (some o.id, (0 : ℚ))
    | _, _ => found
  ⟨found.1,
    s.options.map (fun o =>
      (o.id, optTotalOf s o, found.2 - optTotalOf s o))⟩

/-- The result of `AnalysisService.sensitivity`. -/
structure SensResult where
  criterionId : String
  pct : ℚ
  original : List LBEntry
  adjusted : List LBEntry
deriving DecidableEq, Repr

/-- The derived criteria list built by `AnalysisService.sensitivity`:
every criterion matching the id gets the adjusted weight computed from the
first matching criterion's weight. -/
def adjustedCriteria (s : Scenario) (cid : String) (adjustedWeight : ℚ) :
    List Criterion :=
  s.criteria.map (fun c =>
    if c.id == cid then { c with weight := adjustedWeight } else c)

/-- `AnalysisService.sensitivity`. -/
def sensitivity (s : Scenario) (cid : String) (pct : ℚ) :
    Except Err SensResult :=
  match s.criteria.find? (fun c => c.id == cid) with
  | none => .error .notFound
  | some criterion =>
    let originalLb := leaderboard s
    let adjustedWeight := max 0 (criterion.weight + criterion.weight * (pct / 100))
    let adjusted := { s with criteria := adjustedCriteria s cid adjustedWeight }
    .ok ⟨cid, pct, originalLb, leaderboard adjusted⟩

/-! ### JSON documents and serialization (src/infra/repositories/json_repository.py)

`save` serializes with `scenario.model_dump(mode="json")` and `load`
reconstructs with `Scenario.model_validate`, re-checking the pydantic field
constraints (`weight` an integer ≥ 0, `raw` an integer in `[1,5]`,
`sensitivityStep > 0`, enum literals).  Timestamps are abstracted as `Nat`.
-/

inductive Json where
  | null
  | bool (b : Bool)
  | num (q : ℚ)
  | str (s : String)
  | arr (items : List Json)
  | obj (fields : List (String × Json))

/-- Field lookup in a JSON object (first binding; serialized documents have
unique keys). -/
def jGet (fields : List (String × Json)) (k : String) : Option Json :=
  (fields.find? (fun p => p.1 == k)).map (fun p => p.2)

def encOptStr : Option String → Json
  | some v => .str v
  | none => .null

def decStr : Json → Option String
  | .str v => some v
  | _ => none

def decBool : Json → Option Bool
  | .bool b => some b
  | _ => none

def decOptStr : Json → Option (Option String)
  | .null => some none
  | .str v => some (some v)
  | _ => none

/-- Decode a JSON number as a non-negative integer (pydantic `int` field
with `ge=0`). -/
def decNat : Json → Option Nat
  | .num q => if q.den = 1 ∧ 0 ≤ q.num then some q.num.toNat else none
  | _ => none

def decInt : Json → Option Int
  | .num q => if q.den = 1 then some q.num else none
  | _ => none

def decRat : Json → Option ℚ
  | .num q => some q
  | _ => none

def encAnchors (a : Anchors) : Json :=
  .obj [("hi", .str a.hi), ("lo", .str a.lo)]

def decAnchors (j : Json) : Option Anchors :=
  match j with
  | .obj fields => do
    let hi ← jGet fields "hi" >>= decStr
    let lo ← jGet fields "lo" >>= decStr
    pure ⟨hi, lo⟩
  | _ => none

def encCriterion (c : Criterion) : Json :=
  .obj [("id", .str c.id), ("name", .str c.name), ("weight", .num c.weight),
        ("anchors", encAnchors c.anchors), ("active", .bool c.active)]

def decCriterion (j : Json) : Option Criterion :=
  match j with
  | .obj fields => do
    let id ← jGet fields "id" >>= decStr
    let name ← jGet fields "name" >>= decStr
    let weight ← jGet fields "weight" >>= decNat
    let anchors ← jGet fields "anchors" >>= decAnchors
    let active ← jGet fields "active" >>= decBool
    pure ⟨id, name, weight, anchors, active⟩
  | _ => none

def encOptionItem (o : OptionItem) : Json :=
  .obj [("id", .str o.id), ("name", .str o.name), ("notes", encOptStr o.notes)]

def decOptionItem (j : Json) : Option OptionItem :=
  match j with
  | .obj fields => do
    let id ← jGet fields "id" >>= decStr
    let name ← jGet fields "name" >>= decStr
    let notes ← jGet fields "notes" >>= decOptStr
    pure ⟨id, name, notes⟩
  | _ => none

def encScore (sc : Score) : Json :=
  .obj [("optionId", .str sc.optionId), ("criterionId", .str sc.criterionId),
        ("raw", .num sc.raw), ("rationale", encOptStr sc.rationale)]

def decScore (j : Json) : Option Score :=
  match j with
  | .obj fields => do
    let oid ← jGet fields "optionId" >>= decStr
    let cid ← jGet fields "criterionId" >>= decStr
    let raw ← jGet fields "raw" >>= decNat
    if 1 ≤ raw ∧ raw ≤ 5 then
      let rationale ← jGet fields "rationale" >>= decOptStr
      pure ⟨oid, cid, raw, rationale⟩
    else none
  | _ => none

def encDVal : DVal → Json
  | .str v => .str v
  | .int v => .num v
  | .null => .null

def decDVal : Json → Option DVal
  | .str v => some (DVal.str v)
  | .num q => if q.den = 1 then some (DVal.int q.num) else none
  | .null => some DVal.null
  | _ => none

def encAuditEvent (e : AuditEvent) : Json :=
  .obj [("ts", .num e.ts), ("actor", .str e.actor), ("type", .str e.type),
        ("details", .obj (e.details.map (fun p => (p.1, encDVal p.2))))]

def decDetails (j : Json) : Option (List (String × DVal)) :=
  match j with
  | .obj fields =>
    fields.mapM (fun p => (decDVal p.2).map (fun v => (p.1, v)))
  | _ => none

def decAuditEvent (j : Json) : Option AuditEvent :=
  match j with
  | .obj fields => do
    let ts ← jGet fields "ts" >>= decNat
    let actor ← jGet fields "actor" >>= decStr
    let t ← jGet fields "type" >>= decStr
    let details ← jGet fields "details" >>= decDetails
    pure ⟨ts, actor, t, details⟩
  | _ => none

def encRationalePolicy : RationalePolicy → Json
  | .required => .str "required"
  | .optional => .str "optional"
  | .skippable => .str "skippable"

def decRationalePolicy (j : Json) : Option RationalePolicy :=
  match j with
  | .str "required" => some .required
  | .str "optional" => some .optional
  | .str "skippable" => some .skippable
  | _ => none

def encFlowDefault : FlowDefault → Json
  | .by_criterion => .str "by_criterion"
  | .by_option => .str "by_option"

def decFlowDefault (j : Json) : Option FlowDefault :=
  match j with
  | .str "by_criterion" => some .by_criterion
  | .str "by_option" => some .by_option
  | _ => none

def encSettings (st : Settings) : Json :=
  .obj [("rationalePolicy", encRationalePolicy st.rationalePolicy),
        ("flowDefault", encFlowDefault st.flowDefault),
        ("sensitivityStep", .num st.sensitivityStep)]

def decSettings (j : Json) : Option Settings :=
  match j with
  | .obj fields => do
    let rp ← jGet fields "rationalePolicy" >>= decRationalePolicy
    let fd ← jGet fields "flowDefault" >>= decFlowDefault
    let step ← jGet fields "sensitivityStep" >>= decRat
    if 0 < step then pure ⟨rp, fd, step⟩ else none
  | _ => none

def scenarioToJson (s : Scenario) : Json :=
  .obj [("id", .str s.id), ("title", .str s.title),
        ("createdAt", .num s.createdAt), ("modifiedAt", .num s.modifiedAt),
        ("weightsLocked", .bool s.weightsLocked),
        ("criteria", .arr (s.criteria.map encCriterion)),
        ("options", .arr (s.options.map encOptionItem)),
        ("scores", .arr (s.scores.map encScore)),
        ("settings", encSettings s.settings),
        ("audit", .arr (s.audit.map encAuditEvent))]

def decList (dec : Json → Option α) : Json → Option (List α)
  | .arr items => items.mapM dec
  | _ => none

def scenarioFromJson (j : Json) : Option Scenario :=
  match j with
  | .obj fields => do
    let id ← jGet fields "id" >>= decStr
    let title ← jGet fields "title" >>= decStr
    let createdAt ← jGet fields "createdAt" >>= decNat
    let modifiedAt ← jGet fields "modifiedAt" >>= decNat
    let locked ← jGet fields "weightsLocked" >>= decBool
    let criteria ← jGet fields "criteria" >>= decList decCriterion
    let options ← jGet fields "options" >>= decList decOptionItem
    let scores ← jGet fields "scores" >>= decList decScore
    let settings ← jGet fields "settings" >>= decSettings
    let audit ← jGet fields "audit" >>= decList decAuditEvent
    pure ⟨id, title, createdAt, modifiedAt, locked, criteria, options, scores,
      settings, audit⟩
  | _ => none

/-! ### Path validation and the JSON repository -/

/-- Python `str.strip()` (whitespace stripping on both ends). -/
def pyStrip (s : String) : String :=
  String.mk (((s.toList.dropWhile Char.isWhitespace).reverse.dropWhile
    Char.isWhitespace).reverse)

/-- Substring test for the traversal sequence `".."`: some adjacent pair of
characters is `('.', '.')`. -/
def containsDotDot (id : String) : Bool :=
  (id.toList.zip id.toList.tail).any (fun p => p.1 == '.' && p.2 == '.')

/-- The pattern `^[A-Za-z0-9_-]+$` of the specification, read as a strict
full-string match: a nonempty id made only of the whitelisted characters. -/
def matchesIdPattern (id : String) : Bool :=
  id ≠ "" && id.toList.all (fun c => c.isAlphanum || c == '_' || c == '-')

/-- The check the source actually performs:
`re.match(r'^[a-zA-Z0-9_-]+$', scenario_id)`.  In Python, `$` also matches
just before a single newline at the end of the string, so in addition to
strict matches the source accepts exactly one trailing `'\n'` after the
whitelisted body (e.g. `"abc\n"` passes; `"abc\n\n"`, `"\n"` and
`"abc\r\n"` do not). -/
def reMatchIdPattern (id : String) : Bool :=
  let l := id.toList
  let body := if l.getLast? == some '\n' then l.dropLast else l
  !body.isEmpty && body.all (fun c => c.isAlphanum || c == '_' || c == '-')

/-- `JsonRepository._get_file_path`: validation checks in source order,
then the path `<base>/<id>.json` (the base directory is abstracted away).
The regex check keeps Python `re.match` semantics, which accept one
trailing newline. -/
def getFilePath (id : String) : Except Err String :=
  if id = "" ∨ pyStrip id = "" then .error .validation
  else if containsDotDot id = true ∨
      id.toList.any (fun c => c == '/' || c == '\\') = true then .error .validation
  else if ¬ reMatchIdPattern id = true then .error .validation
  else .ok (id ++ ".json")

/-- The filesystem seen by the repository: paths to JSON documents. -/
def FileSys : Type := List (String × Json)

def fsGet (fs : FileSys) (path : String) : Option Json :=
  ((fs : List (String × Json)).find? (fun p => p.1 == path)).map (fun p => p.2)

def fsSet (fs : FileSys) (path : String) (j : Json) : FileSys :=
  (path, j) :: (fs : List (String × Json)).filter (fun p => ¬ p.1 == path)

def fsRemove (fs : FileSys) (path : String) : FileSys :=
  (fs : List (String × Json)).filter (fun p => ¬ p.1 == path)

/-- `JsonRepository.save`: validate the id, then atomically replace the
target document (temp-write-then-rename collapses to one atomic update of
the modelled filesystem). -/
def repoSave (fs : FileSys) (s : Scenario) : Except Err FileSys := do
  let path ← getFilePath s.id
  pure (fsSet fs path (scenarioToJson s))

/-- `JsonRepository.load`. -/
def repoLoad (fs : FileSys) (id : String) : Except Err Scenario := do
  let path ← getFilePath id
  match fsGet fs path with
  | none => .error .notFound
  | some j =>
    match scenarioFromJson j with
    | some s => .ok s
    | none => .error .io

/-- `JsonRepository.exists`. -/
def repoExists (fs : FileSys) (id : String) : Except Err Bool := do
  let path ← getFilePath id
  pure (fsGet fs path).isSome

/-- `JsonRepository.delete`. -/
def repoDelete (fs : FileSys) (id : String) : Except Err FileSys := do
  let path ← getFilePath id
  match fsGet fs path with
  | none => .error .notFound
  | some _ => pure (fsRemove fs path)

/-! ### Spec-side formulations

These definitions transcribe the specification's formulas (not the source
loops); the functional-correctness theorems compare them with the embedded
source computations. -/

/-- Spec: the weight of "the matching criterion" for a criterion id (first
match; ids are unique by the scenario invariant). -/
def specCritWeight (criteria : List Criterion) (cid : String) : ℚ :=
  match criteria.find? (fun c => c.id == cid) with
  | some c => c.weight
  | none => 0

/-- Spec: `total = Σ over scores belonging to that option of
(raw × matching criterion weight)`. -/
def specTotal (s : Scenario) (oid : String) : ℚ :=
  ((s.scores.filter (fun sc => sc.optionId == oid)).map
    (fun sc => (sc.raw : ℚ) * specCritWeight s.criteria sc.criterionId)).sum

/-- Spec: `maxPossible = Σ(weight × 5)` over all criteria. -/
def specMaxPossible (s : Scenario) : ℚ :=
  (s.criteria.map (fun c => c.weight * 5)).sum

/-- Referential validity: every score's ids exist among the scenario's
current options/criteria. -/
def refValid (s : Scenario) : Prop :=
  ∀ sc ∈ s.scores,
    (∃ o ∈ s.options, o.id = sc.optionId) ∧ (∃ c ∈ s.criteria, c.id = sc.criterionId)

instance (s : Scenario) : Decidable (refValid s) :=
  inferInstanceAs (Decidable (∀ _ ∈ _, _ ∧ _))

/-- The validated model invariants re-checked by `Scenario.model_validate`
on load: every weight an integer ≥ 0, every raw score in `[1,5]`, a
positive sensitivity step. -/
def scenarioValid (s : Scenario) : Prop :=
  (∀ c ∈ s.criteria, c.weight.den = 1 ∧ 0 ≤ c.weight.num) ∧
    (∀ sc ∈ s.scores, 1 ≤ sc.raw ∧ sc.raw ≤ 5) ∧
    0 < s.settings.sensitivityStep

instance (s : Scenario) : Decidable (scenarioValid s) :=
  inferInstanceAs (Decidable (_ ∧ _ ∧ _))

/-! ### Concrete scenarios used by witnesses and counterexamples -/

def exSettings : Settings := ⟨.optional, .by_criterion, 1⟩

/-- The worked example of the spec: criteria weighted 10 and 5, options A
and B, scores A: 5,5 and B: 1,1. -/
def exScenario : Scenario :=
  { id := "ex", title := "t", createdAt := 0, modifiedAt := 0,
    weightsLocked := false,
    criteria := [⟨"c1", "Crit1", 10, ⟨"h", "l"⟩, true⟩,
                 ⟨"c2", "Crit2", 5, ⟨"h", "l"⟩, true⟩],
    options := [⟨"A", "OptA", none⟩, ⟨"B", "OptB", none⟩],
    scores := [⟨"A", "c1", 5, none⟩, ⟨"A", "c2", 5, none⟩,
               ⟨"B", "c1", 1, none⟩, ⟨"B", "c2", 1, none⟩],
    settings := exSettings, audit := [] }

/-- A scenario whose three options have totals 50, 50, 30. -/
def exTie : Scenario :=
  { id := "tie", title := "t", createdAt := 0, modifiedAt := 0,
    weightsLocked := false,
    criteria := [⟨"c1", "Crit1", 10, ⟨"h", "l"⟩, true⟩],
    options := [⟨"A", "OptA", none⟩, ⟨"B", "OptB", none⟩, ⟨"C", "OptC", none⟩],
    scores := [⟨"A", "c1", 5, none⟩, ⟨"B", "c1", 5, none⟩, ⟨"C", "c1", 3, none⟩],
    settings := exSettings, audit := [] }

/-- A weights-locked variant. -/
def exLocked : Scenario := { exScenario with weightsLocked := true }

/-- Two options and no scores: every total is 0. -/
def exAllZero : Scenario :=
  { id := "zero", title := "t", createdAt := 0, modifiedAt := 0,
    weightsLocked := false,
    criteria := [⟨"c1", "Crit1", 10, ⟨"h", "l"⟩, true⟩],
    options := [⟨"A", "OptA", none⟩, ⟨"B", "OptB", none⟩],
    scores := [], settings := exSettings, audit := [] }

/-- No options, no criteria, no scores. -/
def exEmpty : Scenario :=
  { id := "empty", title := "t", createdAt := 0, modifiedAt := 0,
    weightsLocked := false, criteria := [], options := [], scores := [],
    settings := exSettings, audit := [] }

/-- The row content of a leaderboard entry (forgetting the rank). -/
def rowOf (e : LBEntry) : LBRow :=
  ⟨e.optionId, e.name, e.total, e.normalized⟩

/-- Spec: the competition rank of a total within a row list — one more than
the number of rows with a strictly greater total. -/
def specRank (L : List LBRow) (t : ℚ) : Nat :=
  1 + L.countP (fun r => decide (t < r.total))

end EndpointSel

deriving instance DecidableEq for Except

namespace EndpointSel

/-! ### Helper lemmas -/

theorem setWeightInList_eq_none {cid : String} {w : ℚ} {l : List Criterion}
    (h : ∀ c ∈ l, c.id ≠ cid) : setWeightInList cid w l = none := by
  induction l with
  | nil => rfl
  | cons c rest ih =>
    have hc : (c.id == cid) = false := by
      simpa using h c (List.mem_cons_self c rest)
    simp only [setWeightInList, hc, Bool.false_eq_true, if_false]
    rw [ih (fun x hx => h x (List.mem_cons_of_mem c hx))]
    rfl

/-! ### C4 -/

/-- C4: `setWeight` on a locked scenario always fails with `LockedError`
(the input scenario value is immutable, so it is unchanged: no criterion is
modified and no audit event is appended); on an unlocked scenario it fails
with `ValidationError` when the weight is negative and with `NotFoundError`
when the criterion id does not exist, again producing no scenario. -/
theorem setWeight_error_cases (s : Scenario) (cid : String) (w : ℚ)
    (actor reason : String) (now : Nat) :
    (s.weightsLocked = true →
      set_weight s cid w actor reason now = .error .locked) ∧
    (s.weightsLocked = false → w < 0 →
      set_weight s cid w actor reason now = .error .validation) ∧
    (s.weightsLocked = false → 0 ≤ w → (∀ c ∈ s.criteria, c.id ≠ cid) →
      set_weight s cid w actor reason now = .error .notFound) := by
  refine ⟨fun hl => ?_, fun hl hw => ?_, fun hl hw hc => ?_⟩
  · simp [set_weight, hl]
  · simp [set_weight, hl, hw]
  · simp [set_weight, hl, not_lt.mpr hw, setWeightInList_eq_none hc]

/-- Witness for C4 at concrete inputs. -/
theorem setWeight_error_cases_witness :
    set_weight exLocked "c1" 7 "eve" "why" 3 = .error .locked ∧
    set_weight exScenario "c1" (-2) "eve" "why" 3 = .error .validation ∧
    set_weight exScenario "nope" 7 "eve" "why" 3 = .error .notFound :=
  ⟨(setWeight_error_cases exLocked "c1" 7 "eve" "why" 3).1 rfl,
   (setWeight_error_cases exScenario "c1" (-2) "eve" "why" 3).2.1 rfl (by norm_num),
   (setWeight_error_cases exScenario "nope" 7 "eve" "why" 3).2.2 rfl
     (by norm_num) (by decide)⟩

/-! ### C7: path validation -/

/-- A character allowed by `^[a-zA-Z0-9_-]+$` is neither whitespace nor one
of the path/traversal characters checked earlier in
`JsonRepository._get_file_path`. -/
theorem idChar_props (c : Char) (h : (c.isAlphanum || c == '_' || c == '-') = true) :
    c.isWhitespace = false ∧ (c == '.') = false ∧ (c == '/') = false ∧
      (c == '\\') = false := by
  refine ⟨?_, ?_, ?_, ?_⟩
  · rcases Bool.eq_false_or_eq_true c.isWhitespace with ht | hf
    · exfalso
      simp only [Char.isWhitespace, Bool.or_eq_true, decide_eq_true_eq] at ht
      rcases ht with ((h1 | h1) | h1) | h1 <;> subst h1 <;> simp at h
    · exact hf
  · rcases Bool.eq_false_or_eq_true (c == '.') with ht | hf
    · exfalso
      have h2 : c = '.' := by simpa using ht
      subst h2
      simp at h
    · exact hf
  · rcases Bool.eq_false_or_eq_true (c == '/') with ht | hf
    · exfalso
      have h2 : c = '/' := by simpa using ht
      subst h2
      simp at h
    · exact hf
  · rcases Bool.eq_false_or_eq_true (c == '\\') with ht | hf
    · exfalso
      have h2 : c = '\\' := by simpa using ht
      subst h2
      simp at h
    · exact hf

theorem dropWhile_eq_self_of_false {p : α → Bool} {l : List α}
    (h : ∀ c ∈ l, p c = false) : l.dropWhile p = l := by
  cases l with
  | nil => rfl
  | cons c rest => simp [List.dropWhile_cons, h c (List.mem_cons_self c rest)]

/-- Stripping leaves an id with no whitespace characters unchanged. -/
theorem pyStrip_eq_self {id : String}
    (h : ∀ c ∈ id.toList, c.isWhitespace = false) : pyStrip id = id := by
  unfold pyStrip
  rw [dropWhile_eq_self_of_false h,
      dropWhile_eq_self_of_false (fun c hc => h c (List.mem_reverse.mp hc)),
      List.reverse_reverse]
  rfl

/-- An id matching the pattern passes every validation check. -/
theorem getFilePath_of_matches {id : String} (h : matchesIdPattern id = true) :
    getFilePath id = .ok (id ++ ".json") := by
  have hne : id ≠ "" := by
    intro he
    rw [he] at h
    simp [matchesIdPattern] at h
  have hall : ∀ c ∈ id.toList, (c.isAlphanum || c == '_' || c == '-') = true := by
    intro c hc
    simp only [matchesIdPattern, Bool.and_eq_true, List.all_eq_true] at h
    exact h.2 c hc
  have hstrip : pyStrip id = id :=
    pyStrip_eq_self (fun c hc => (idChar_props c (hall c hc)).1)
  have hdd : containsDotDot id = false := by
    rw [containsDotDot, List.any_eq_false]
    rintro ⟨a, b⟩ hab
    have ha := (List.of_mem_zip hab).1
    simp [(idChar_props a (hall a ha)).2.1]
  have hsep : id.toList.any (fun c => c == '/' || c == '\\') = false := by
    rw [List.any_eq_false]
    intro c hc
    simp [(idChar_props c (hall c hc)).2.2.1, (idChar_props c (hall c hc)).2.2.2]
  have hlne : id.toList ≠ [] := by
    intro hl
    apply hne
    cases id with
    | mk data =>
      simp only [String.toList] at hl
      rw [hl]
  have hlast : (id.toList.getLast? == some '\n') = false := by
    cases hgl : id.toList.getLast? with
    | none =>
      rw [List.getLast?_eq_none_iff] at hgl
      exact absurd hgl hlne
    | some c =>
      have hcm : c ∈ id.toList := by
        rw [List.getLast?_eq_getLast_of_ne_nil hlne] at hgl
        rw [← Option.some.inj hgl]
        exact List.getLast_mem hlne
      have hnw := (idChar_props c (hall c hcm)).1
      have hcne : c ≠ '\n' := by
        intro he
        rw [he] at hnw
        simp at hnw
      simp [hcne]
  have hre : reMatchIdPattern id = true := by
    rw [reMatchIdPattern]
    simp only [hlast, Bool.false_eq_true, if_false, Bool.and_eq_true,
      Bool.not_eq_true', List.isEmpty_eq_false, List.all_eq_true]
    exact ⟨hlne, hall⟩
  have c1 : ¬ (id = "" ∨ pyStrip id = "") := by simp [hne, hstrip]
  have c2 : ¬ (containsDotDot id = true ∨
      id.toList.any (fun c => c == '/' || c == '\\') = true) := by
    rw [hdd, hsep]
    simp
  have c3 : ¬ ¬ reMatchIdPattern id = true := by simp [hre]
  rw [getFilePath, if_neg c1, if_neg c2, if_neg c3]

/-- An id failing the source's `re.match` check is rejected. -/
theorem getFilePath_of_not_reMatch {id : String}
    (h : reMatchIdPattern id = false) :
    getFilePath id = .error .validation := by
  rw [getFilePath]
  by_cases h1 : id = "" ∨ pyStrip id = ""
  · rw [if_pos h1]
  · rw [if_neg h1]
    by_cases h2 : containsDotDot id = true ∨
        id.toList.any (fun c => c == '/' || c == '\\') = true
    · rw [if_pos h2]
    · rw [if_neg h2, if_pos]
      simp [h]

/-- Every repository operation rejects, before any filesystem access, the
ids the source's own check rejects; an id strictly matching the spec's
pattern resolves to `<id>.json`. -/
theorem repo_rejects_nonmatching_ids (fs : FileSys) (id : String)
    (s : Scenario) :
    (reMatchIdPattern id = false →
      (s.id = id → repoSave fs s = .error .validation) ∧
      repoLoad fs id = .error .validation ∧
      repoExists fs id = .error .validation ∧
      repoDelete fs id = .error .validation) ∧
    (matchesIdPattern id = true → getFilePath id = .ok (id ++ ".json")) := by
  constructor
  · intro h
    have hp := getFilePath_of_not_reMatch h
    refine ⟨fun hs => ?_, ?_, ?_, ?_⟩
    · rw [repoSave, hs, hp]
      rfl
    · rw [repoLoad, hp]
      rfl
    · rw [repoExists, hp]
      rfl
    · rw [repoDelete, hp]
      rfl
  · exact getFilePath_of_matches

/-- C7 fails on the code: Python's `re.match(r'^[a-zA-Z0-9_-]+$', ·)`
accepts one trailing newline (`$` matches before a final `'\n'`), so the
id `"abc\n"`, which does not match the claimed pattern `^[A-Za-z0-9_-]+$`,
passes `_get_file_path` — contradicting the source's own comment
"Only allow alphanumeric characters, underscores, and hyphens" — and the
repository proceeds to the filesystem: `exists` consults it, `load`
reaches its not-found branch, and `save`/`load` round-trip a document at
the path `"abc\n.json"` instead of raising `ValidationError`. -/
theorem trailingNewline_id_reaches_fs :
    matchesIdPattern "abc\n" = false ∧
    reMatchIdPattern "abc\n" = true ∧
    getFilePath "abc\n" = .ok "abc\n.json" ∧
    repoExists [] "abc\n" = .ok false ∧
    repoLoad [] "abc\n" = .error .notFound ∧
    repoSave [] { exScenario with id := "abc\n" } =
      .ok (fsSet [] "abc\n.json"
        (scenarioToJson { exScenario with id := "abc\n" })) ∧
    repoLoad (fsSet [] "abc\n.json"
        (scenarioToJson { exScenario with id := "abc\n" })) "abc\n" =
      .ok { exScenario with id := "abc\n" } :=
  ⟨by decide, by decide, by decide, by decide, by decide, rfl, by decide⟩

/-! ### C5: set_score replace/append semantics and its audit event -/

theorem replaceFirstScore_eq_none {oid cid : String} {raw : Nat}
    {rat : Option String} {l : List Score}
    (h : ∀ p ∈ l, ¬(p.optionId = oid ∧ p.criterionId = cid)) :
    replaceFirstScore oid cid raw rat l = none := by
  induction l with
  | nil => rfl
  | cons sc rest ih =>
    have hsc : (sc.optionId == oid && sc.criterionId == cid) = false := by
      have := h sc (List.mem_cons_self sc rest)
      simp only [Bool.and_eq_false_iff, beq_eq_false_iff_ne, ne_eq]
      tauto
    simp only [replaceFirstScore, hsc, Bool.false_eq_true, if_false]
    rw [ih (fun p hp => h p (List.mem_cons_of_mem sc hp))]
    rfl

theorem replaceFirstScore_eq_some {oid cid : String} {raw : Nat}
    {rat : Option String} {pre post : List Score} {old : Score}
    (hpre : ∀ p ∈ pre, ¬(p.optionId = oid ∧ p.criterionId = cid))
    (hold : old.optionId = oid ∧ old.criterionId = cid) :
    replaceFirstScore oid cid raw rat (pre ++ old :: post) =
      some ((pre ++ ⟨oid, cid, raw,
        match rat with
        | some r => some r
        | none => old.rationale⟩ :: post), old.raw) := by
  induction pre with
  | nil =>
    have hb : (old.optionId == oid && old.criterionId == cid) = true := by
      simp [hold.1, hold.2]
    simp [replaceFirstScore, hb]
  | cons p rest ih =>
    have hb : (p.optionId == oid && p.criterionId == cid) = false := by
      have := hpre p (List.mem_cons_self p rest)
      simp only [Bool.and_eq_false_iff, beq_eq_false_iff_ne, ne_eq]
      tauto
    simp only [List.cons_append, replaceFirstScore, hb, Bool.false_eq_true,
      if_false]
    rw [List.append_eq, ih (fun q hq => hpre q (List.mem_cons_of_mem p hq))]
    rfl

/-- C5: for a valid raw value and existing option and criterion ids on an
unlocked scenario, when a score for the pair already exists `set_score`
replaces it at the same list position, keeping the previous rationale
unless a new one is supplied; otherwise it appends a new score.  In both
cases exactly one `score_changed` audit event is appended, whose details
carry the option id, criterion id, the prior raw value (or null on a first
score) and the new value. -/
theorem setScore_semantics (s : Scenario) (oid cid : String) (raw : Nat)
    (actor : String) (rat : Option String) (now : Nat)
    (_hlock : s.weightsLocked = false)
    (hraw : 1 ≤ raw ∧ raw ≤ 5)
    (ho : ∃ o ∈ s.options, o.id = oid)
    (hc : ∃ c ∈ s.criteria, c.id = cid) :
    (∀ pre old post, s.scores = pre ++ old :: post →
      old.optionId = oid ∧ old.criterionId = cid →
      (∀ p ∈ pre, ¬(p.optionId = oid ∧ p.criterionId = cid)) →
      set_score s oid cid raw actor rat now = .ok
        { s with
          scores := pre ++ (⟨oid, cid, raw,
            match rat with
            | some r => some r
            | none => old.rationale⟩ : Score) :: post,
          audit := s.audit ++ [⟨now, actor, "score_changed",
            [("optionId", DVal.str oid), ("criterionId", DVal.str cid),
             ("oldValue", DVal.int old.raw), ("newValue", DVal.int raw)]⟩] }) ∧
    ((∀ p ∈ s.scores, ¬(p.optionId = oid ∧ p.criterionId = cid)) →
      set_score s oid cid raw actor rat now = .ok
        { s with
          scores := s.scores ++ [⟨oid, cid, raw, rat⟩],
          audit := s.audit ++ [⟨now, actor, "score_changed",
            [("optionId", DVal.str oid), ("criterionId", DVal.str cid),
             ("oldValue", DVal.null), ("newValue", DVal.int raw)]⟩] }) := by
  have hanyo : s.options.any (fun o => o.id == oid) = true := by
    rw [List.any_eq_true]
    obtain ⟨o, hmem, hid⟩ := ho
    exact ⟨o, hmem, by simp [hid]⟩
  have hanyc : s.criteria.any (fun c => c.id == cid) = true := by
    rw [List.any_eq_true]
    obtain ⟨c, hmem, hid⟩ := hc
    exact ⟨c, hmem, by simp [hid]⟩
  constructor
  · intro pre old post hsplit hold hpre
    rw [set_score, if_neg (by simpa using hraw), if_neg (by simp [hanyo]),
        if_neg (by simp [hanyc]), hsplit,
        replaceFirstScore_eq_some hpre hold]
    simp [log_score_change, log_event, hsplit]
  · intro hnone
    rw [set_score, if_neg (by simpa using hraw), if_neg (by simp [hanyo]),
        if_neg (by simp [hanyc]), replaceFirstScore_eq_none hnone]
    simp [log_score_change, log_event]

/-- Witness for C5: replacing the existing score A/c1 (raw 5 → 4) keeps the
position and its rationale default, and logs oldValue 5; scoring a fresh
pair appends. -/
theorem setScore_semantics_witness :
    set_score exScenario "A" "c1" 4 "bob" none 7 = .ok
      { exScenario with
        scores := [⟨"A", "c1", 4, none⟩, ⟨"A", "c2", 5, none⟩,
                   ⟨"B", "c1", 1, none⟩, ⟨"B", "c2", 1, none⟩],
        audit := [⟨7, "bob", "score_changed",
          [("optionId", DVal.str "A"), ("criterionId", DVal.str "c1"),
           ("oldValue", DVal.int 5), ("newValue", DVal.int 4)]⟩] } ∧
    set_score exAllZero "A" "c1" 2 "bob" (some "why") 9 = .ok
      { exAllZero with
        scores := [⟨"A", "c1", 2, some "why"⟩],
        audit := [⟨9, "bob", "score_changed",
          [("optionId", DVal.str "A"), ("criterionId", DVal.str "c1"),
           ("oldValue", DVal.null), ("newValue", DVal.int 2)]⟩] } := by
  constructor
  · have h := (setScore_semantics exScenario "A" "c1" 4 "bob" none 7 rfl
      (by decide) (by decide) (by decide)).1
      [] ⟨"A", "c1", 5, none⟩
      [⟨"A", "c2", 5, none⟩, ⟨"B", "c1", 1, none⟩, ⟨"B", "c2", 1, none⟩]
      rfl (by decide) (by decide)
    simpa using h
  · have h := (setScore_semantics exAllZero "A" "c1" 2 "bob" (some "why") 9 rfl
      (by decide) (by decide) (by decide)).2 (by decide)
    simpa using h

/-! ### C6: referential validity under the mutating services -/

/-- Counterexample to C6 as stated: `set_rationale` performs no referential
check, so on a scenario with no options or criteria at all it succeeds and
manufactures a score whose ids reference nothing. -/
theorem setRationale_breaks_refValid :
    refValid exEmpty ∧
    set_rationale exEmpty "X" "Y" "boom" "bob" =
      .ok { exEmpty with scores := [⟨"X", "Y", 3, some "boom"⟩] } ∧
    ¬ refValid { exEmpty with scores := [⟨"X", "Y", 3, some "boom"⟩] } := by
  refine ⟨by decide, by decide, by decide⟩

theorem mem_replaceFirstScore {oid cid : String} {raw : Nat}
    {rat : Option String} :
    ∀ {l ns : List Score} {oldRaw : Nat},
      replaceFirstScore oid cid raw rat l = some (ns, oldRaw) →
      ∀ x ∈ ns, (x.optionId = oid ∧ x.criterionId = cid) ∨ x ∈ l := by
  intro l
  induction l with
  | nil => intro ns oldRaw h; simp [replaceFirstScore] at h
  | cons sc rest ih =>
    intro ns oldRaw h x hx
    by_cases hb : (sc.optionId == oid && sc.criterionId == cid) = true
    · simp only [replaceFirstScore, hb, if_true, Option.some.injEq,
        Prod.mk.injEq] at h
      rw [← h.1] at hx
      cases hx with
      | head => exact Or.inl ⟨rfl, rfl⟩
      | tail _ hmem => exact Or.inr (List.mem_cons_of_mem sc hmem)
    · have hb' := Bool.not_eq_true _ ▸ hb
      simp only [replaceFirstScore, hb', Bool.false_eq_true, if_false] at h
      cases hrec : replaceFirstScore oid cid raw rat rest with
      | none => rw [hrec] at h; simp at h
      | some q =>
        rw [hrec] at h
        simp only [Option.map_some', Option.some.injEq, Prod.mk.injEq] at h
        rw [← h.1] at hx
        cases hx with
        | head => exact Or.inr (List.mem_cons_self sc rest)
        | tail _ hmem =>
          rcases @ih q.1 q.2 (by rw [hrec]) x hmem with hl | hr
          · exact Or.inl hl
          · exact Or.inr (List.mem_cons_of_mem sc hr)

theorem mem_setRationaleInList {oid cid rat : String} :
    ∀ {l ns : List Score}, setRationaleInList oid cid rat l = some ns →
      ∀ x ∈ ns, ∃ y ∈ l, x.optionId = y.optionId ∧ x.criterionId = y.criterionId := by
  intro l
  induction l with
  | nil => intro ns h; simp [setRationaleInList] at h
  | cons sc rest ih =>
    intro ns h x hx
    by_cases hb : (sc.optionId == oid && sc.criterionId == cid) = true
    · simp only [setRationaleInList, hb, if_true, Option.some.injEq] at h
      rw [← h] at hx
      cases hx with
      | head => exact ⟨sc, List.mem_cons_self sc rest, rfl, rfl⟩
      | tail _ hmem =>
        exact ⟨x, List.mem_cons_of_mem sc hmem, rfl, rfl⟩
    · have hb' := Bool.not_eq_true _ ▸ hb
      simp only [setRationaleInList, hb', Bool.false_eq_true, if_false] at h
      cases hrec : setRationaleInList oid cid rat rest with
      | none => rw [hrec] at h; simp at h
      | some ns' =>
        rw [hrec] at h
        simp only [Option.map_some', Option.some.injEq] at h
        rw [← h] at hx
        cases hx with
        | head => exact ⟨sc, List.mem_cons_self sc rest, rfl, rfl⟩
        | tail _ hmem =>
          obtain ⟨y, hy, hids⟩ := ih hrec x hmem
          exact ⟨y, List.mem_cons_of_mem sc hy, hids⟩

theorem setWeightInList_ids {cid : String} {w : ℚ} :
    ∀ {l nl : List Criterion} {ow : ℚ}, setWeightInList cid w l = some (nl, ow) →
      nl.map (fun c => c.id) = l.map (fun c => c.id) := by
  intro l
  induction l with
  | nil => intro nl ow h; simp [setWeightInList] at h
  | cons c rest ih =>
    intro nl ow h
    by_cases hb : (c.id == cid) = true
    · simp only [setWeightInList, hb, if_true, Option.some.injEq,
        Prod.mk.injEq] at h
      rw [← h.1]
      simp
    · have hb' := Bool.not_eq_true _ ▸ hb
      simp only [setWeightInList, hb', Bool.false_eq_true, if_false] at h
      cases hrec : setWeightInList cid w rest with
      | none => rw [hrec] at h; simp at h
      | some q =>
        rw [hrec] at h
        simp only [Option.map_some', Option.some.injEq, Prod.mk.injEq] at h
        rw [← h.1]
        simp [@ih q.1 q.2 (by rw [hrec])]

/-- C6 amended: `setScore`, `setWeight`, `lock` and `unlock` preserve
referential validity of the scores; `setRationale` performs no referential
check of its own (see the counterexample), so it preserves validity exactly
when the ids it is called with exist in the scenario. -/
theorem services_preserve_refValid (s : Scenario) (hs : refValid s) :
    (∀ oid cid raw actor rat now s',
      set_score s oid cid raw actor rat now = .ok s' → refValid s') ∧
    (∀ cid w actor reason now s',
      set_weight s cid w actor reason now = .ok s' → refValid s') ∧
    (∀ actor now s', lock_weights s actor now = .ok s' → refValid s') ∧
    (∀ actor reason now s',
      unlock_weights s actor reason now = .ok s' → refValid s') ∧
    (∀ oid cid rat actor s', (∃ o ∈ s.options, o.id = oid) →
      (∃ c ∈ s.criteria, c.id = cid) →
      set_rationale s oid cid rat actor = .ok s' → refValid s') := by
  refine ⟨?_, ?_, ?_, ?_, ?_⟩
  · intro oid cid raw actor rat now s' h
    rw [set_score] at h
    split_ifs at h with h1 h2 h3
    have ho : ∃ o ∈ s.options, o.id = oid := by
      obtain ⟨o, hmem, hid⟩ := List.any_eq_true.mp h2
      exact ⟨o, hmem, by simpa using hid⟩
    have hc : ∃ c ∈ s.criteria, c.id = cid := by
      obtain ⟨c, hmem, hid⟩ := List.any_eq_true.mp h3
      exact ⟨c, hmem, by simpa using hid⟩
    cases hrep : replaceFirstScore oid cid raw rat s.scores with
    | some q =>
      rw [hrep] at h
      cases h
      intro x hx
      rcases mem_replaceFirstScore hrep x hx with ⟨hxo, hxc⟩ | hmem
      · exact ⟨hxo ▸ ho, hxc ▸ hc⟩
      · exact hs x hmem
    | none =>
      rw [hrep] at h
      cases h
      intro x hx
      rcases List.mem_append.mp hx with hmem | hnew
      · exact hs x hmem
      · have hx' : x = ⟨oid, cid, raw, rat⟩ := by simpa using hnew
        subst hx'
        exact ⟨ho, hc⟩
  · intro cid w actor reason now s' h
    rw [set_weight] at h
    split_ifs at h with h1 h2
    cases hrep : setWeightInList cid w s.criteria with
    | none => rw [hrep] at h; cases h
    | some q =>
      rw [hrep] at h
      cases h
      intro x hx
      refine ⟨(hs x hx).1, ?_⟩
      obtain ⟨c, hmem, hid⟩ := (hs x hx).2
      have : c.id ∈ q.1.map (fun c => c.id) := by
        rw [setWeightInList_ids hrep]
        exact List.mem_map.mpr ⟨c, hmem, rfl⟩
      obtain ⟨c', hmem', hid'⟩ := List.mem_map.mp this
      exact ⟨c', hmem', hid' ▸ hid⟩
  · intro actor now s' h
    rw [lock_weights] at h
    split_ifs at h with h1
    cases h
    exact hs
  · intro actor reason now s' h
    rw [unlock_weights] at h
    split_ifs at h with h1
    cases h
    exact hs
  · intro oid cid rat actor s' ho hc h
    rw [set_rationale] at h
    split_ifs at h with h1
    cases hrec : setRationaleInList oid cid rat s.scores with
    | some ns =>
      rw [hrec] at h
      cases h
      intro x hx
      obtain ⟨y, hy, hyo, hyc⟩ := mem_setRationaleInList hrec x hx
      exact ⟨hyo ▸ (hs y hy).1, hyc ▸ (hs y hy).2⟩
    | none =>
      rw [hrec] at h
      cases h
      intro x hx
      rcases List.mem_append.mp hx with hmem | hnew
      · exact hs x hmem
      · have hx' : x = ⟨oid, cid, 3, some rat⟩ := by simpa using hnew
        subst hx'
        exact ⟨ho, hc⟩

/-- Witness for C6 (amended): on the worked example every listed operation
preserves referential validity at concrete arguments. -/
theorem services_preserve_refValid_witness :
    refValid exScenario ∧
    (∀ s', set_score exScenario "A" "c1" 2 "bob" none 1 = .ok s' → refValid s') ∧
    (∀ s', set_weight exScenario "c1" 3 "bob" "r" 1 = .ok s' → refValid s') ∧
    (∀ s', lock_weights exScenario "bob" 1 = .ok s' → refValid s') ∧
    (∀ s', set_rationale exScenario "A" "c1" "why" "bob" = .ok s' → refValid s') :=
  ⟨by decide,
   fun s' => (services_preserve_refValid exScenario (by decide)).1
     "A" "c1" 2 "bob" none 1 s',
   fun s' => (services_preserve_refValid exScenario (by decide)).2.1
     "c1" 3 "bob" "r" 1 s',
   fun s' => (services_preserve_refValid exScenario (by decide)).2.2.1
     "bob" 1 s',
   fun s' => (services_preserve_refValid exScenario (by decide)).2.2.2.2
     "A" "c1" "why" "bob" s' (by decide) (by decide)⟩

/-! ### C1: totals -/

theorem foldl_if_add_eq_sum {α : Type} (p : α → Bool) (f : α → ℚ) :
    ∀ (l : List α) (a : ℚ),
      l.foldl (fun acc x => if p x then acc + f x else acc) a =
        a + ((l.filter p).map f).sum := by
  intro l
  induction l with
  | nil => intro a; simp
  | cons x rest ih =>
    intro a
    by_cases hp : p x = true
    · simp only [List.foldl_cons, hp, if_true, List.filter_cons,
        List.map_cons, List.sum_cons, ih]
      ring
    · have hp' := Bool.not_eq_true _ ▸ hp
      simp only [List.foldl_cons, hp', Bool.false_eq_true, if_false,
        List.filter_cons, ih]

theorem foldl_add_eq_sum {α : Type} (f : α → ℚ) :
    ∀ (l : List α) (a : ℚ),
      l.foldl (fun acc x => acc + f x) a = a + (l.map f).sum := by
  intro l
  induction l with
  | nil => intro a; simp
  | cons x rest ih =>
    intro a
    simp only [List.foldl_cons, List.map_cons, List.sum_cons, ih]
    ring

/-- Under unique criterion ids, last-binding dict lookup agrees with the
spec's "the matching criterion". -/
theorem weightsGet_eq_spec {criteria : List Criterion}
    (hnodup : (criteria.map (fun c => c.id)).Nodup) (cid : String) :
    weightsGet criteria cid = specCritWeight criteria cid := by
  rw [weightsGet, specCritWeight]
  cases hf : criteria.find? (fun c => c.id == cid) with
  | none =>
    have hnone : criteria.reverse.find? (fun c => c.id == cid) = none := by
      rw [List.find?_eq_none] at hf ⊢
      exact fun c hc => hf c (List.mem_reverse.mp hc)
    rw [hnone]
  | some c =>
    have hc : c ∈ criteria ∧ (c.id == cid) = true :=
      ⟨List.mem_of_find?_eq_some hf, by simpa using List.find?_some hf⟩
    cases hf' : criteria.reverse.find? (fun c => c.id == cid) with
    | none =>
      rw [List.find?_eq_none] at hf'
      exact absurd hc.2 (hf' c (List.mem_reverse.mpr hc.1))
    | some c' =>
      have hc' : c' ∈ criteria ∧ (c'.id == cid) = true :=
        ⟨List.mem_reverse.mp (List.mem_of_find?_eq_some hf'),
         by simpa using List.find?_some hf'⟩
      have hcc : c = c' := by
        apply List.inj_on_of_nodup_map hnodup hc.1 hc'.1
        rw [beq_iff_eq.mp hc.2, beq_iff_eq.mp hc'.2]
      rw [hcc]

theorem optionTotal_eq_spec (s : Scenario)
    (hnodup : (s.criteria.map (fun c => c.id)).Nodup) (oid : String) :
    optionTotal s oid = specTotal s oid := by
  rw [optionTotal, specTotal,
    foldl_if_add_eq_sum (fun sc => sc.optionId == oid)
      (fun sc => (sc.raw : ℚ) * weightsGet s.criteria sc.criterionId) s.scores 0,
    zero_add]
  congr 1
  exact List.map_congr_left (fun sc _ => by rw [weightsGet_eq_spec hnodup])

theorem maxPossible_eq_spec (s : Scenario) :
    maxPossible s = specMaxPossible s := by
  rw [maxPossible, specMaxPossible,
    foldl_add_eq_sum (fun c => c.weight * 5) s.criteria 0, zero_add]

theorem specMaxPossible_nonneg (s : Scenario)
    (hw : ∀ c ∈ s.criteria, 0 ≤ c.weight) : 0 ≤ specMaxPossible s := by
  rw [specMaxPossible]
  apply List.sum_nonneg
  intro q hq
  obtain ⟨c, hc, hcq⟩ := List.mem_map.mp hq
  rw [← hcq]
  exact mul_nonneg (hw c hc) (by norm_num)

/-- C1: for every scenario with unique criterion ids and non-negative
weights (the scenario model invariants), the totals mapping is keyed by the
options in order, each total is the spec's
`Σ raw × matching criterion weight` over the option's scores (criteria not
referenced contribute 0 via the default), and each normalized value is
`total / maxPossible × 100` with `maxPossible = Σ weight × 5`, or 0 when
`maxPossible = 0`.  On the worked example the totals are A: 75 at 100%,
B: 15 at 20%. -/
theorem totals_spec (s : Scenario)
    (hnodup : (s.criteria.map (fun c => c.id)).Nodup)
    (hw : ∀ c ∈ s.criteria, 0 ≤ c.weight) :
    ((calculateTotals s).map Prod.fst = s.options.map (fun o => o.id) ∧
      ∀ p ∈ calculateTotals s,
        p.2.total = specTotal s p.1 ∧
        p.2.normalized = (if specMaxPossible s = 0 then 0
          else specTotal s p.1 / specMaxPossible s * 100)) ∧
    calculateTotals exScenario = [("A", ⟨75, 100⟩), ("B", ⟨15, 20⟩)] := by
  refine ⟨⟨?_, ?_⟩, ?_⟩
  · rw [calculateTotals, List.map_map]
    rfl
  · intro p hp
    obtain ⟨o, ho, hop⟩ := List.mem_map.mp hp
    rw [← hop]
    refine ⟨optionTotal_eq_spec s hnodup o.id, ?_⟩
    rw [normalizedOf, maxPossible_eq_spec, optionTotal_eq_spec s hnodup o.id]
    rcases lt_or_eq_of_le (specMaxPossible_nonneg s hw) with hpos | hzero
    · rw [if_pos hpos, if_neg (by linarith)]
    · rw [if_neg (by rw [← hzero]; exact lt_irrefl 0), if_pos hzero.symm]
  · norm_num +decide [calculateTotals, exScenario, optionTotal, weightsGet,
      normalizedOf, maxPossible, exSettings, totalsGet]

/-- Witness for C1 on the worked example. -/
theorem totals_spec_witness :
    ((calculateTotals exScenario).map Prod.fst =
        exScenario.options.map (fun o => o.id) ∧
      ∀ p ∈ calculateTotals exScenario,
        p.2.total = specTotal exScenario p.1 ∧
        p.2.normalized = (if specMaxPossible exScenario = 0 then 0
          else specTotal exScenario p.1 / specMaxPossible exScenario * 100)) ∧
    calculateTotals exScenario = [("A", ⟨75, 100⟩), ("B", ⟨15, 20⟩)] :=
  totals_spec exScenario (by decide) (by decide)

/-! ### C9: sensitivity -/

theorem zip_self_map {α β : Type} (f : α → β) :
    ∀ (l : List α), ∀ p ∈ l.zip (l.map f), p.2 = f p.1 := by
  intro l
  induction l with
  | nil => intro p hp; simp at hp
  | cons x rest ih =>
    intro p hp
    rcases List.mem_cons.mp hp with hhead | htail
    · rw [hhead]
    · exact ih p htail

/-- Structure update with the unchanged weight is the identity. -/
theorem criterion_update_self (c : Criterion) :
    ({ c with weight := c.weight } : Criterion) = c := rfl

/-- C9: `sensitivity` fails with `NotFoundError` when the criterion id is
absent; otherwise it reports the requested id and pct, the original
leaderboard of the untouched input scenario, and the leaderboard of a
derived criteria list in which, position by position, everything is
preserved except that the named criterion's weight becomes
`max(0, w + w·pct/100)`; `pct = -100` drives that weight to 0, and
`pct = 0` makes the adjusted leaderboard identical to the original. -/
theorem sensitivity_spec (s : Scenario) (cid : String) (pct : ℚ)
    (hnodup : (s.criteria.map (fun c => c.id)).Nodup)
    (hw : ∀ c ∈ s.criteria, 0 ≤ c.weight) :
    ((∀ c ∈ s.criteria, c.id ≠ cid) →
      sensitivity s cid pct = .error .notFound) ∧
    (∀ c ∈ s.criteria, c.id = cid →
      (∃ r, sensitivity s cid pct = .ok r ∧
        r.criterionId = cid ∧ r.pct = pct ∧
        r.original = leaderboard s ∧
        r.adjusted = leaderboard
          { s with
            criteria := adjustedCriteria s cid
              (max 0 (c.weight + c.weight * (pct / 100))) }) ∧
      (∀ p ∈ s.criteria.zip
          (adjustedCriteria s cid (max 0 (c.weight + c.weight * (pct / 100)))),
        p.2.id = p.1.id ∧ p.2.name = p.1.name ∧ p.2.anchors = p.1.anchors ∧
        p.2.active = p.1.active ∧
        (p.1.id ≠ cid → p.2 = p.1) ∧
        (p.1.id = cid →
          p.2.weight = max 0 (c.weight + c.weight * (pct / 100)))) ∧
      (pct = -100 → max 0 (c.weight + c.weight * (pct / 100)) = 0) ∧
      (pct = 0 → ∃ r, sensitivity s cid 0 = .ok r ∧ r.adjusted = r.original)) := by
  constructor
  · intro habs
    have hf : s.criteria.find? (fun c => c.id == cid) = none := by
      rw [List.find?_eq_none]
      intro c hc
      simp [habs c hc]
    rw [sensitivity, hf]
  · intro c hc hcid
    have hf : ∃ c₀, s.criteria.find? (fun c => c.id == cid) = some c₀ := by
      cases hfind : s.criteria.find? (fun c => c.id == cid) with
      | none =>
        rw [List.find?_eq_none] at hfind
        exact absurd (by simp [hcid]) (hfind c hc)
      | some c₀ => exact ⟨c₀, rfl⟩
    obtain ⟨c₀, hf⟩ := hf
    have hc₀mem : c₀ ∈ s.criteria := List.mem_of_find?_eq_some hf
    have hc₀id : c₀.id = cid := by simpa using List.find?_some hf
    have hc₀ : c₀ = c :=
      List.inj_on_of_nodup_map hnodup hc₀mem hc (by rw [hc₀id, hcid])
    have hok : sensitivity s cid pct = .ok
        ⟨cid, pct, leaderboard s, leaderboard
          { s with
            criteria := adjustedCriteria s cid
              (max 0 (c.weight + c.weight * (pct / 100))) }⟩ := by
      rw [sensitivity, hf, hc₀]
    refine ⟨⟨_, hok, rfl, rfl, rfl, rfl⟩, ?_, ?_, ?_⟩
    · intro p hp
      rw [adjustedCriteria] at hp
      have hadj := zip_self_map _ s.criteria p hp
      by_cases hb : (p.1.id == cid) = true
      · simp only [hb, if_true] at hadj
        rw [hadj]
        exact ⟨rfl, rfl, rfl, rfl, fun hne => absurd (by simpa using hb) hne,
          fun _ => rfl⟩
      · have hb' := Bool.not_eq_true _ ▸ hb
        simp only [hb', Bool.false_eq_true, if_false] at hadj
        rw [hadj]
        exact ⟨rfl, rfl, rfl, rfl, fun _ => rfl,
          fun heq => absurd (by simp [heq]) hb⟩
    · intro hpct
      subst hpct
      norm_num
    · intro hpct
      subst hpct
      have haw : max 0 (c.weight + c.weight * (0 / 100)) = c.weight := by
        rw [zero_div, mul_zero, add_zero]
        exact max_eq_right (hw c hc)
      have hid : adjustedCriteria s cid
          (max 0 (c.weight + c.weight * (0 / 100))) = s.criteria := by
        rw [haw, adjustedCriteria]
        conv_rhs => rw [← List.map_id s.criteria]
        apply List.map_congr_left
        intro c' hc'
        by_cases hb : (c'.id == cid) = true
        · have hcc : c' = c := List.inj_on_of_nodup_map hnodup hc' hc
            (by rw [beq_iff_eq.mp hb, hcid])
          rw [if_pos hb, hcc]
          rfl
        · rw [if_neg hb]
          rfl
      refine ⟨⟨cid, 0, leaderboard s, leaderboard s⟩, ?_, rfl⟩
      have hok0 : sensitivity s cid 0 = .ok
          ⟨cid, 0, leaderboard s, leaderboard
            { s with
              criteria := adjustedCriteria s cid
                (max 0 (c.weight + c.weight * ((0 : ℚ) / 100))) }⟩ := by
        rw [sensitivity, hf, hc₀]
      rw [hok0, hid]

/-- Witness for C9: on the worked example, an absent criterion id fails
with `NotFoundError` and a 0% adjustment reproduces the original
leaderboard. -/
theorem sensitivity_spec_witness :
    sensitivity exScenario "zz" 50 = .error .notFound ∧
    (∃ r, sensitivity exScenario "c1" 0 = .ok r ∧ r.adjusted = r.original) :=
  ⟨(sensitivity_spec exScenario "zz" 50 (by decide) (by decide)).1 (by decide),
   ((sensitivity_spec exScenario "c1" 0 (by decide) (by decide)).2
     ⟨"c1", "Crit1", 10, ⟨"h", "l"⟩, true⟩ (by decide) rfl).2.2.2 rfl⟩

/-! ### C2/C10: leaderboard machinery -/

/-- On a descending-sorted row list, the rank-assignment loop computes the
competition rank of each row's total. -/
theorem assignRanksAux_spec :
    ∀ (rs pre : List LBRow) (prevT : ℚ) (curR : Nat),
      List.Pairwise lbGE (pre ++ rs) →
      ((pre = [] ∧ curR = 1) ∨
        (pre ≠ [] ∧ (∀ x ∈ pre, prevT ≤ x.total) ∧
          (∃ p ∈ pre, p.total = prevT) ∧
          curR = specRank (pre ++ rs) prevT)) →
      assignRanksAux pre.length prevT curR rs =
        rs.map (fun r => ⟨r.optionId, r.name, r.total, r.normalized,
          specRank (pre ++ rs) r.total⟩) := by
  intro rs
  induction rs with
  | nil => intro pre prevT curR _ _; rfl
  | cons r rs' ih =>
    intro pre prevT curR hpw hinv
    have hpw' := List.pairwise_append.mp hpw
    have hger : ∀ x ∈ pre, r.total ≤ x.total := fun x hx =>
      hpw'.2.2 x hx r (List.mem_cons_self r rs')
    have hrle : ∀ a ∈ rs', a.total ≤ r.total := by
      have hp2 := hpw'.2.1
      rw [List.pairwise_cons] at hp2
      exact fun a ha => hp2.1 a ha
    have htail0 : (r :: rs').countP (fun x => decide (r.total < x.total)) = 0 := by
      rw [List.countP_eq_zero]
      intro a ha
      rcases List.mem_cons.mp ha with hhead | htail
      · simp [hhead]
      · simpa using not_lt.mpr (hrle a htail)
    have hrank : (if 0 < pre.length ∧ r.total < prevT then pre.length + 1
        else curR) = specRank (pre ++ r :: rs') r.total := by
      split_ifs with hcond
      · obtain ⟨hlen, hlt⟩ := hcond
        rcases hinv with ⟨he, _⟩ | ⟨_, hall, _, _⟩
        · rw [he] at hlen; simp at hlen
        · rw [specRank, List.countP_append]
          have h1 : pre.countP (fun x => decide (r.total < x.total)) =
              pre.length := by
            rw [List.countP_eq_length]
            intro x hx
            simpa using lt_of_lt_of_le hlt (hall x hx)
          rw [h1, htail0]
          omega
      · rcases hinv with ⟨he, hcur⟩ | ⟨hne, hall, ⟨p, hp, hpt⟩, hcur⟩
        · subst he
          rw [hcur, specRank]
          simp only [List.nil_append]
          rw [htail0]
        · have h0 : 0 < pre.length := List.length_pos.mpr hne
          have hnlt : ¬ r.total < prevT := fun hlt => hcond ⟨h0, hlt⟩
          have heq : r.total = prevT :=
            le_antisymm (hpt ▸ hger p hp) (not_lt.mp hnlt)
          rw [hcur, heq]
    simp only [assignRanksAux, hrank, List.map_cons]
    have hlen' : (pre ++ [r]).length = pre.length + 1 := by simp
    have happ : (pre ++ [r]) ++ rs' = pre ++ r :: rs' := by simp
    have hrec := ih (pre ++ [r]) r.total
      (specRank (pre ++ r :: rs') r.total)
      (by rw [happ]; exact hpw)
      (Or.inr ⟨by simp, ?_, ⟨r, List.mem_append.mpr (Or.inr
        (List.mem_cons_self r [])), rfl⟩, by rw [happ]⟩)
    · rw [hlen', happ] at hrec
      rw [hrec]
    · intro x hx
      rcases List.mem_append.mp hx with hxp | hxr
      · exact hger x hxp
      · have : x = r := by simpa using hxr
        rw [this]

theorem assignRanks_spec (L : List LBRow) (hs : List.Pairwise lbGE L) :
    assignRanks L = L.map (fun r =>
      ⟨r.optionId, r.name, r.total, r.normalized, specRank L r.total⟩) :=
  assignRanksAux_spec L [] 0 1 hs (Or.inl ⟨rfl, rfl⟩)

/-- Counting strictly greater totals in a descending list whose position
`i+1` value is `t`: exactly the `i+1` positions before it. -/
theorem countP_gt_eq (R : List LBRow) (i : Nat) (hi : i + 1 < R.length) (t : ℚ)
    (hup : ∀ k (hk : k < R.length), k < i + 1 → t < (R.get ⟨k, hk⟩).total)
    (hdown : ∀ m (hm : m < R.length), i + 1 ≤ m → (R.get ⟨m, hm⟩).total ≤ t) :
    R.countP (fun r => decide (t < r.total)) = i + 1 := by
  have htake : (R.take (i + 1)).length = i + 1 := by
    rw [List.length_take]
    exact min_eq_left (le_of_lt hi)
  have h1 : (R.take (i + 1)).countP (fun r => decide (t < r.total)) = i + 1 := by
    refine Eq.trans (List.countP_eq_length.mpr ?_) htake
    intro a ha
    obtain ⟨k, hk, hka⟩ := List.mem_iff_getElem.mp ha
    have hkR : k < R.length := lt_of_lt_of_le (htake ▸ hk) (le_of_lt hi)
    have hki : k < i + 1 := htake ▸ hk
    rw [List.getElem_take] at hka
    have := hup k hkR hki
    rw [List.get_eq_getElem] at this
    simp only [← hka]
    simpa using this
  have h2 : (R.drop (i + 1)).countP (fun r => decide (t < r.total)) = 0 := by
    rw [List.countP_eq_zero]
    intro a ha
    obtain ⟨j, hj, hja⟩ := List.mem_iff_getElem.mp ha
    have hjR : i + 1 + j < R.length := by
      have := hj
      rw [List.length_drop] at this
      omega
    rw [List.getElem_drop] at hja
    have := hdown (i + 1 + j) hjR (by omega)
    rw [List.get_eq_getElem] at this
    simp only [← hja]
    simpa using not_lt.mpr this
  calc R.countP (fun r => decide (t < r.total))
      = (R.take (i + 1) ++ R.drop (i + 1)).countP
          (fun r => decide (t < r.total)) := by
        rw [List.take_append_drop]
    _ = i + 1 := by rw [List.countP_append, h1, h2]

/-- C2: the leaderboard has one entry per option (same length, option ids a
permutation of the scenario's options), is sorted by total descending, and
carries competition ranks: entries with equal totals share the same rank,
and an entry whose total strictly drops below its predecessor receives rank
equal to its 1-based position; on the concrete tie scenario the totals
`[50, 50, 30]` receive ranks `[1, 1, 3]`. -/
theorem leaderboard_ranks (s : Scenario) :
    ((leaderboard s).length = s.options.length ∧
      ((leaderboard s).map (fun e => e.optionId)).Perm
        (s.options.map (fun o => o.id))) ∧
    (∀ i j (hi : i < (leaderboard s).length) (hj : j < (leaderboard s).length),
      i < j →
      ((leaderboard s).get ⟨j, hj⟩).total ≤ ((leaderboard s).get ⟨i, hi⟩).total) ∧
    (∀ i j (hi : i < (leaderboard s).length) (hj : j < (leaderboard s).length),
      ((leaderboard s).get ⟨i, hi⟩).total = ((leaderboard s).get ⟨j, hj⟩).total →
      ((leaderboard s).get ⟨i, hi⟩).rank = ((leaderboard s).get ⟨j, hj⟩).rank) ∧
    (∀ i (hi : i + 1 < (leaderboard s).length),
      ((leaderboard s).get ⟨i + 1, hi⟩).total <
        ((leaderboard s).get ⟨i, Nat.lt_of_succ_lt hi⟩).total →
      ((leaderboard s).get ⟨i + 1, hi⟩).rank = i + 2) ∧
    (leaderboard exTie).map (fun e => (e.total, e.rank)) =
      [(50, 1), (50, 1), (30, 3)] := by
  have hsort : List.Pairwise lbGE ((lbRows s).insertionSort lbGE) :=
    List.sorted_insertionSort lbGE (lbRows s)
  have hlb : leaderboard s =
      ((lbRows s).insertionSort lbGE).map (fun r =>
        ⟨r.optionId, r.name, r.total, r.normalized,
          specRank ((lbRows s).insertionSort lbGE) r.total⟩) := by
    rw [leaderboard]
    exact assignRanks_spec _ hsort
  have hlen2 : (leaderboard s).length =
      ((lbRows s).insertionSort lbGE).length := by
    rw [hlb, List.length_map]
  have hget : ∀ i (hi : i < (leaderboard s).length),
      (leaderboard s).get ⟨i, hi⟩ =
        (fun r => (⟨r.optionId, r.name, r.total, r.normalized,
          specRank ((lbRows s).insertionSort lbGE) r.total⟩ : LBEntry))
          (((lbRows s).insertionSort lbGE).get ⟨i, hlen2 ▸ hi⟩) := by
    intro i hi
    have hi' : i < ((lbRows s).insertionSort lbGE).length := hlen2 ▸ hi
    have ha : (leaderboard s)[i]? = some ((leaderboard s).get ⟨i, hi⟩) := by
      rw [List.getElem?_eq_getElem hi, List.get_eq_getElem]
    have hb : (leaderboard s)[i]? = some
        ((fun r => (⟨r.optionId, r.name, r.total, r.normalized,
          specRank ((lbRows s).insertionSort lbGE) r.total⟩ : LBEntry))
          (((lbRows s).insertionSort lbGE).get ⟨i, hi'⟩)) := by
      rw [hlb, List.getElem?_map, List.getElem?_eq_getElem hi',
        List.get_eq_getElem]
      rfl
    exact Option.some.inj (ha.symm.trans hb)
  have hRpair := List.pairwise_iff_getElem.mp hsort
  refine ⟨⟨?_, ?_⟩, ?_, ?_, ?_, ?_⟩
  · rw [hlb, List.length_map, List.length_insertionSort, lbRows,
      List.length_map]
  · rw [hlb, List.map_map]
    have hrows : (lbRows s).map (fun r => r.optionId) =
        s.options.map (fun o => o.id) := by
      rw [lbRows, List.map_map]
      rfl
    have hperm := (List.perm_insertionSort lbGE (lbRows s)).map
      (fun r => r.optionId)
    rw [hrows] at hperm
    exact hperm
  · intro i j hi hj hij
    rw [hget i hi, hget j hj]
    have := hRpair i j (hlen2 ▸ hi) (hlen2 ▸ hj) hij
    simpa [lbGE] using this
  · intro i j hi hj heq
    rw [hget i hi, hget j hj]
    rw [hget i hi, hget j hj] at heq
    simp only at heq ⊢
    rw [heq]
  · intro i hi hlt
    have hi' : i + 1 < ((lbRows s).insertionSort lbGE).length := hlen2 ▸ hi
    rw [hget (i + 1) hi]
    rw [hget (i + 1) hi, hget i (Nat.lt_of_succ_lt hi)] at hlt
    simp only at hlt ⊢
    have hup : ∀ k (hk : k < ((lbRows s).insertionSort lbGE).length),
        k < i + 1 →
        (((lbRows s).insertionSort lbGE).get ⟨i + 1, hlen2 ▸ hi⟩).total <
          (((lbRows s).insertionSort lbGE).get ⟨k, hk⟩).total := by
      intro k hk hki
      rcases Nat.lt_or_ge k i with hklt | hkge
      · refine lt_of_lt_of_le hlt ?_
        have := hRpair k i hk (Nat.lt_of_succ_lt hi') hklt
        simpa [lbGE, List.get_eq_getElem] using this
      · have hkeq : k = i := by omega
        subst hkeq
        exact hlt
    have hdown : ∀ m (hm : m < ((lbRows s).insertionSort lbGE).length),
        i + 1 ≤ m →
        (((lbRows s).insertionSort lbGE).get ⟨m, hm⟩).total ≤
          (((lbRows s).insertionSort lbGE).get ⟨i + 1, hlen2 ▸ hi⟩).total := by
      intro m hm hmi
      rcases Nat.eq_or_lt_of_le hmi with heqm | hltm
      · subst heqm
        exact le_refl _
      · have := hRpair (i + 1) m hi' hm hltm
        simpa [lbGE, List.get_eq_getElem] using this
    rw [specRank, countP_gt_eq _ i hi' _ hup hdown]
    omega
  · norm_num +decide [leaderboard, lbRows, exTie, optionTotal, weightsGet,
      normalizedOf, maxPossible, exSettings, totalsGet, calculateTotals,
      assignRanks, assignRanksAux, List.insertionSort, List.orderedInsert,
      lbGE]

/-- Witness for C2: the tie scenario has three entries with totals
`[50, 50, 30]` and ranks `[1, 1, 3]`. -/
theorem leaderboard_ranks_witness :
    (leaderboard exTie).map (fun e => (e.total, e.rank)) =
      [(50, 1), (50, 1), (30, 3)] ∧
    (leaderboard exTie).length = 3 := by
  have h := leaderboard_ranks exTie
  refine ⟨h.2.2.2.2, ?_⟩
  rw [h.1.1]
  rfl

/-- A stable sort leaves each equal-total class in input order: filtering
the sorted list by one total value gives the input's filtered list. -/
theorem insertionSort_filter_eq (l : List LBRow) (q : ℚ) :
    (l.insertionSort lbGE).filter (fun r => r.total == q) =
      l.filter (fun r => r.total == q) := by
  have hpw : List.Pairwise lbGE (l.filter (fun r => r.total == q)) := by
    apply List.pairwise_of_forall_mem_list
    intro a ha b hb
    have ha' : a.total = q := by simpa using (List.mem_filter.mp ha).2
    have hb' : b.total = q := by simpa using (List.mem_filter.mp hb).2
    show b.total ≤ a.total
    rw [ha', hb']
  have hsub : (l.filter (fun r => r.total == q)).Sublist
      (l.insertionSort lbGE) :=
    List.sublist_insertionSort hpw (List.filter_sublist l)
  have hsub2 : (l.filter (fun r => r.total == q)).Sublist
      ((l.insertionSort lbGE).filter (fun r => r.total == q)) := by
    have h := hsub.filter (fun r => r.total == q)
    simp only [List.filter_filter, Bool.and_self] at h
    exact h
  have hlen : ((l.insertionSort lbGE).filter (fun r => r.total == q)).length =
      (l.filter (fun r => r.total == q)).length := by
    rw [← List.countP_eq_length_filter, ← List.countP_eq_length_filter]
    exact (List.perm_insertionSort lbGE l).countP_eq _
  exact (hsub2.eq_of_length hlen.symm).symm

/-- C10: `leaderboard` is a pure function of the scenario (hence
deterministic), its entries' row contents are a permutation of the rows
built in options order, and its tie order is stable: for every total value
`q`, the leaderboard entries with total `q`, read top to bottom, are
exactly the options with total `q` in the order of the scenario's options
list — the sort reorders only across strictly different totals. -/
theorem leaderboard_stable (s : Scenario) (q : ℚ) :
    ((leaderboard s).map rowOf).filter (fun r => r.total == q) =
      (lbRows s).filter (fun r => r.total == q) ∧
    ((leaderboard s).map rowOf).Perm (lbRows s) := by
  have hsort := List.sorted_insertionSort lbGE (lbRows s)
  have hlb : (leaderboard s).map rowOf = (lbRows s).insertionSort lbGE := by
    rw [leaderboard, assignRanks_spec _ hsort, List.map_map]
    exact List.map_id _
  rw [hlb]
  exact ⟨insertionSort_filter_eq (lbRows s) q,
    List.perm_insertionSort lbGE (lbRows s)⟩

/-! ### C3: delta to winner -/

/-- Counterexample to C3 as stated: with two options both totalling 0, the
winner is the first option A, yet option B also gets delta 0 — delta 0 is
not reported for *exactly* the winner when totals tie. -/
theorem deltaToWinner_tie_counterexample :
    (delta_to_winner exAllZero).winner = some "A" ∧
    (delta_to_winner exAllZero).entries = [("A", 0, 0), ("B", 0, 0)] := by
  constructor <;>
    norm_num +decide [delta_to_winner, winnerStep, optTotalOf, exAllZero,
      totalsGet, calculateTotals, optionTotal, weightsGet, normalizedOf,
      maxPossible, exSettings]

/-- The totals-dict lookup used by `delta_to_winner` agrees with the
per-option accumulation for options of the scenario. -/
theorem optTotalOf_eq (s : Scenario) (o : OptionItem) (ho : o ∈ s.options) :
    optTotalOf s o = optionTotal s o.id := by
  rw [optTotalOf, totalsGet]
  cases hf : (calculateTotals s).reverse.find? (fun p => p.1 == o.id) with
  | none =>
    rw [List.find?_eq_none] at hf
    exact absurd (by simp)
      (hf (o.id, ⟨optionTotal s o.id, normalizedOf s o.id⟩)
        (List.mem_reverse.mpr (List.mem_map.mpr ⟨o, ho, rfl⟩)))
  | some p =>
    have hmem := List.mem_reverse.mp (List.mem_of_find?_eq_some hf)
    have hkey : p.1 = o.id := by simpa using List.find?_some hf
    obtain ⟨o', ho', hpo⟩ := List.mem_map.mp hmem
    have hids : o'.id = o.id := by rw [← hpo] at hkey; simpa using hkey
    rw [← hpo]
    simp only
    rw [hids]

theorem optionTotal_nonneg (s : Scenario)
    (hw : ∀ c ∈ s.criteria, 0 ≤ c.weight) (oid : String) :
    0 ≤ optionTotal s oid := by
  rw [optionTotal, foldl_if_add_eq_sum, zero_add]
  apply List.sum_nonneg
  intro q hq
  obtain ⟨sc, _, hscq⟩ := List.mem_map.mp hq
  rw [← hscq]
  apply mul_nonneg (by positivity)
  rw [weightsGet]
  cases hf : s.criteria.reverse.find? (fun c => c.id == sc.criterionId) with
  | none => exact le_refl 0
  | some c =>
    exact hw c (List.mem_reverse.mp (List.mem_of_find?_eq_some hf))

/-- When no option beats the accumulator, the winner loop returns the
accumulator unchanged. -/
theorem winnerFold_no_improver (s : Scenario) :
    ∀ (l : List OptionItem) (accW : Option String) (accM : ℚ),
      (∀ o ∈ l, optTotalOf s o ≤ accM) →
      l.foldl (winnerStep s) (accW, accM) = (accW, accM) := by
  intro l
  induction l with
  | nil => intro accW accM _; rfl
  | cons o rest ih =>
    intro accW accM hall
    have hno : ¬ accM < optTotalOf s o :=
      not_lt.mpr (hall o (List.mem_cons_self o rest))
    rw [List.foldl_cons, winnerStep, if_neg hno]
    exact ih accW accM (fun x hx => hall x (List.mem_cons_of_mem o hx))

/-- When some option beats the accumulator, the winner loop returns the
first option attaining the maximum total of the list. -/
theorem winnerFold_spec (s : Scenario) :
    ∀ (l : List OptionItem) (accW : Option String) (accM : ℚ),
      (∃ o ∈ l, accM < optTotalOf s o) →
      ∃ pre w post, l = pre ++ w :: post ∧
        l.foldl (winnerStep s) (accW, accM) = (some w.id, optTotalOf s w) ∧
        accM < optTotalOf s w ∧
        (∀ p ∈ pre, optTotalOf s p < optTotalOf s w) ∧
        (∀ o ∈ l, optTotalOf s o ≤ optTotalOf s w) := by
  intro l
  induction l with
  | nil => intro accW accM h; simp at h
  | cons o rest ih =>
    intro accW accM himp
    by_cases ho : accM < optTotalOf s o
    · by_cases hrest : ∃ x ∈ rest, optTotalOf s o < optTotalOf s x
      · obtain ⟨pre, w, post, hsplit, hfold, hacc, hpre, hmax⟩ :=
          ih (some o.id) (optTotalOf s o) hrest
        refine ⟨o :: pre, w, post, by rw [hsplit]; rfl, ?_, ?_, ?_, ?_⟩
        · rw [List.foldl_cons, winnerStep, if_pos ho]
          exact hfold
        · exact lt_trans ho hacc
        · intro p hp
          rcases List.mem_cons.mp hp with hph | hpt
          · rw [hph]; exact hacc
          · exact hpre p hpt
        · intro x hx
          rcases List.mem_cons.mp hx with hxh | hxt
          · rw [hxh]; exact le_of_lt hacc
          · exact hmax x hxt
      · push_neg at hrest
        refine ⟨[], o, rest, rfl, ?_, ho, by simp, ?_⟩
        · rw [List.foldl_cons, winnerStep, if_pos ho]
          exact winnerFold_no_improver s rest (some o.id) (optTotalOf s o) hrest
        · intro x hx
          rcases List.mem_cons.mp hx with hxh | hxt
          · rw [hxh]
          · exact hrest x hxt
    · have hrest : ∃ x ∈ rest, accM < optTotalOf s x := by
        obtain ⟨x, hx, hxlt⟩ := himp
        rcases List.mem_cons.mp hx with hxh | hxt
        · exact absurd (hxh ▸ hxlt) ho
        · exact ⟨x, hxt, hxlt⟩
      obtain ⟨pre, w, post, hsplit, hfold, hacc, hpre, hmax⟩ :=
        ih accW accM hrest
      refine ⟨o :: pre, w, post, by rw [hsplit]; rfl, ?_, hacc, ?_, ?_⟩
      · rw [List.foldl_cons, winnerStep, if_neg ho]
        exact hfold
      · intro p hp
        rcases List.mem_cons.mp hp with hph | hpt
        · rw [hph]; exact lt_of_le_of_lt (not_lt.mp ho) hacc
        · exact hpre p hpt
      · intro x hx
        rcases List.mem_cons.mp hx with hxh | hxt
        · rw [hxh]; exact le_of_lt (lt_of_le_of_lt (not_lt.mp ho) hacc)
        · exact hmax x hxt

/-- C3 amended: for a scenario with at least one option (and the model
invariant of non-negative weights), `deltaToWinner` designates as winner
the first option in list order attaining the maximum total; every option's
entry reports `delta = winnerTotal − optionTotal ≥ 0` with
`winnerTotal − delta = optionTotal`, and `delta = 0` holds exactly for the
options whose total equals the winner's — in particular for the winner, but
also for any option tied with it (see the counterexample). -/
theorem deltaToWinner_spec (s : Scenario)
    (hne : s.options ≠ [])
    (hw : ∀ c ∈ s.criteria, 0 ≤ c.weight) :
    ∃ pre w post, s.options = pre ++ w :: post ∧
      (delta_to_winner s).winner = some w.id ∧
      (∀ p ∈ pre, optTotalOf s p < optTotalOf s w) ∧
      (∀ o ∈ s.options, optTotalOf s o ≤ optTotalOf s w) ∧
      (delta_to_winner s).entries = s.options.map (fun o =>
        (o.id, optTotalOf s o, optTotalOf s w - optTotalOf s o)) ∧
      (∀ e ∈ (delta_to_winner s).entries,
        0 ≤ e.2.2 ∧ optTotalOf s w - e.2.2 = e.2.1 ∧
          (e.2.2 = 0 ↔ e.2.1 = optTotalOf s w)) := by
  obtain ⟨o0, l0, hl0⟩ : ∃ o0 l0, s.options = o0 :: l0 := by
    cases hopts : s.options with
    | nil => exact absurd hopts hne
    | cons a b => exact ⟨a, b, rfl⟩
  have himp : ∃ o ∈ s.options, (-1 : ℚ) < optTotalOf s o := by
    refine ⟨o0, by rw [hl0]; exact List.mem_cons_self o0 l0, ?_⟩
    have h0 : (0 : ℚ) ≤ optTotalOf s o0 := by
      rw [optTotalOf_eq s o0 (by rw [hl0]; exact List.mem_cons_self o0 l0)]
      exact optionTotal_nonneg s hw o0.id
    linarith
  obtain ⟨pre, w, post, hsplit, hfold, _, hpre, hmax⟩ :=
    winnerFold_spec s s.options none (-1) himp
  have hd : delta_to_winner s = ⟨some w.id, s.options.map (fun o =>
      (o.id, optTotalOf s o, optTotalOf s w - optTotalOf s o))⟩ := by
    rw [delta_to_winner, hfold]
  refine ⟨pre, w, post, hsplit, by rw [hd], hpre, hmax, by rw [hd], ?_⟩
  intro e he
  rw [hd] at he
  obtain ⟨o, ho, hoe⟩ := List.mem_map.mp he
  rw [← hoe]
  refine ⟨?_, by ring, ?_⟩
  · simp only
    have := hmax o ho
    linarith
  · simp only
    constructor
    · intro hz
      linarith
    · intro heq
      rw [heq]
      ring

/-- Witness for C3 (amended) on the tie scenario: A wins, B ties at delta 0,
C trails by 20. -/
theorem deltaToWinner_spec_witness :
    (∃ pre w post, exTie.options = pre ++ w :: post ∧
      (delta_to_winner exTie).winner = some w.id ∧
      (∀ p ∈ pre, optTotalOf exTie p < optTotalOf exTie w) ∧
      (∀ o ∈ exTie.options, optTotalOf exTie o ≤ optTotalOf exTie w) ∧
      (delta_to_winner exTie).entries = exTie.options.map (fun o =>
        (o.id, optTotalOf exTie o,
          optTotalOf exTie w - optTotalOf exTie o)) ∧
      (∀ e ∈ (delta_to_winner exTie).entries,
        0 ≤ e.2.2 ∧ optTotalOf exTie w - e.2.2 = e.2.1 ∧
          (e.2.2 = 0 ↔ e.2.1 = optTotalOf exTie w))) ∧
    (delta_to_winner exTie).winner = some "A" :=
  ⟨deltaToWinner_spec exTie (by decide) (by decide),
   by norm_num +decide [delta_to_winner, winnerStep, optTotalOf, exTie,
     totalsGet, calculateTotals, optionTotal, weightsGet, normalizedOf,
     maxPossible, exSettings]⟩

/-! ### C8: persistence round-trip -/

theorem rat_coe_toNat (q : ℚ) (h1 : q.den = 1) (h2 : 0 ≤ q.num) :
    ((q.num.toNat : ℕ) : ℚ) = q := by
  have hz : ((q.num.toNat : ℕ) : ℤ) = q.num := Int.toNat_of_nonneg h2
  have h3 : ((q.num.toNat : ℕ) : ℚ) = ((q.num : ℤ) : ℚ) := by
    exact_mod_cast congrArg (fun z : ℤ => (z : ℚ)) hz
  rw [h3, ← Rat.num_div_den q, h1]
  norm_num

theorem mapM_map_dec {α β : Type} (enc : α → β) (dec : β → Option α) :
    ∀ (l : List α), (∀ x ∈ l, dec (enc x) = some x) →
      (l.map enc).mapM dec = some l := by
  intro l
  induction l with
  | nil => intro _; rfl
  | cons x rest ih =>
    intro h
    rw [List.map_cons, List.mapM_cons, h x (List.mem_cons_self x rest),
        ih (fun y hy => h y (List.mem_cons_of_mem x hy))]
    rfl

theorem decAnchors_enc (a : Anchors) : decAnchors (encAnchors a) = some a := rfl

theorem decOptStr_enc (v : Option String) : decOptStr (encOptStr v) = some v := by
  cases v <;> rfl

theorem decCriterion_enc (c : Criterion) (h1 : c.weight.den = 1)
    (h2 : 0 ≤ c.weight.num) : decCriterion (encCriterion c) = some c := by
  obtain ⟨i, n, w, an, act⟩ := c
  simp only at h1 h2
  have hw0 : (0 : ℚ) ≤ w := by
    rw [← Rat.num_nonneg]
    exact h2
  simp [decCriterion, encCriterion, jGet, decStr, decNat, decBool,
    decAnchors_enc, h1, h2, hw0, rat_coe_toNat w h1 h2]

theorem decScore_enc (sc : Score) (h1 : 1 ≤ sc.raw) (h2 : sc.raw ≤ 5) :
    decScore (encScore sc) = some sc := by
  obtain ⟨oid, cid, raw, rat⟩ := sc
  simp only at h1 h2
  simp [decScore, encScore, jGet, decStr, decNat, decOptStr_enc, h1, h2,
    Rat.den_natCast, Rat.num_natCast, Int.toNat_natCast]

theorem decDVal_enc (v : DVal) : decDVal (encDVal v) = some v := by
  cases v with
  | str w => rfl
  | int n => simp [decDVal, encDVal, Rat.den_intCast, Rat.num_intCast]
  | null => rfl

theorem decAuditEvent_enc (e : AuditEvent) :
    decAuditEvent (encAuditEvent e) = some e := by
  obtain ⟨ts, actor, t, details⟩ := e
  have hdet : decDetails (Json.obj (details.map
      (fun p => (p.1, encDVal p.2)))) = some details := by
    rw [decDetails]
    have h := mapM_map_dec (fun p : String × DVal => (p.1, encDVal p.2))
      (fun p => (decDVal p.2).map (fun v => (p.1, v))) details
      (fun x hx => by simp [decDVal_enc])
    exact h
  simp [decAuditEvent, encAuditEvent, jGet, decStr, decNat, hdet,
    Rat.den_natCast, Rat.num_natCast, Int.toNat_natCast]

theorem decSettings_enc (st : Settings) (h : 0 < st.sensitivityStep) :
    decSettings (encSettings st) = some st := by
  obtain ⟨rp, fd, step⟩ := st
  simp only at h
  cases rp <;> cases fd <;>
    simp [decSettings, encSettings, encRationalePolicy, encFlowDefault,
      decRationalePolicy, decFlowDefault, jGet, decRat, h]

/-- `model_dump` followed by `model_validate` reconstructs an equal
scenario value whenever the scenario satisfies the validated model
invariants. -/
theorem scenarioFromJson_enc (s : Scenario) (hv : scenarioValid s) :
    scenarioFromJson (scenarioToJson s) = some s := by
  obtain ⟨hv1, hv2, hv3⟩ := hv
  obtain ⟨id, title, ca, ma, lock, criteria, options, scores, settings,
    audit⟩ := s
  simp only at hv1 hv2 hv3
  have hc : decList decCriterion (.arr (criteria.map encCriterion)) =
      some criteria := by
    rw [decList]
    exact mapM_map_dec encCriterion decCriterion criteria
      (fun c hc => decCriterion_enc c (hv1 c hc).1 (hv1 c hc).2)
  have hop : decList decOptionItem (.arr (options.map encOptionItem)) =
      some options := by
    rw [decList]
    exact mapM_map_dec encOptionItem decOptionItem options
      (fun o _ => by
        obtain ⟨i, n, notes⟩ := o
        cases notes <;> rfl)
  have hsc : decList decScore (.arr (scores.map encScore)) = some scores := by
    rw [decList]
    exact mapM_map_dec encScore decScore scores
      (fun sc hsc => decScore_enc sc (hv2 sc hsc).1 (hv2 sc hsc).2)
  have hau : decList decAuditEvent (.arr (audit.map encAuditEvent)) =
      some audit := by
    rw [decList]
    exact mapM_map_dec encAuditEvent decAuditEvent audit
      (fun e _ => decAuditEvent_enc e)
  simp [scenarioToJson, scenarioFromJson, jGet, decStr, decNat, decBool,
    hc, hop, hsc, hau, decSettings_enc _ hv3,
    Rat.den_natCast, Rat.num_natCast, Int.toNat_natCast]

/-- C8: saving a valid scenario and loading it back by its id reproduces an
equal scenario value (all nested lists and settings included), and loading
an id for which no document exists fails with `NotFoundError`. -/
theorem save_load_roundtrip (s : Scenario) (fs : FileSys)
    (hid : matchesIdPattern s.id = true) (hv : scenarioValid s) :
    (∃ fs2, repoSave fs s = .ok fs2 ∧ repoLoad fs2 s.id = .ok s) ∧
    (∀ (id : String) (fs0 : FileSys), matchesIdPattern id = true →
      fsGet fs0 (id ++ ".json") = none →
      repoLoad fs0 id = .error .notFound) := by
  constructor
  · refine ⟨fsSet fs (s.id ++ ".json") (scenarioToJson s), ?_, ?_⟩
    · rw [repoSave, getFilePath_of_matches hid]
      rfl
    · rw [repoLoad, getFilePath_of_matches hid]
      have hget : fsGet (fsSet fs (s.id ++ ".json") (scenarioToJson s))
          (s.id ++ ".json") = some (scenarioToJson s) := by
        rw [fsGet, fsSet]
        simp [List.find?_cons]
      show (match fsGet (fsSet fs (s.id ++ ".json") (scenarioToJson s))
          (s.id ++ ".json") with
        | none => Except.error Err.notFound
        | some j =>
          match scenarioFromJson j with
          | some s => Except.ok s
          | none => Except.error Err.io) = Except.ok s
      rw [hget]
      simp [scenarioFromJson_enc s hv]
  · intro id fs0 hidm hnone
    rw [repoLoad, getFilePath_of_matches hidm]
    show (match fsGet fs0 (id ++ ".json") with
      | none => Except.error Err.notFound
      | some j =>
        match scenarioFromJson j with
        | some s => Except.ok s
        | none => Except.error Err.io) = Except.error Err.notFound
    rw [hnone]

/-- Witness for C8: round-trip of the worked example and a missing-file
load at a fresh id. -/
theorem save_load_roundtrip_witness :
    (∃ fs2, repoSave [] exScenario = .ok fs2 ∧
      repoLoad fs2 "ex" = .ok exScenario) ∧
    repoLoad [] "missing" = .error .notFound :=
  ⟨(save_load_roundtrip exScenario [] (by decide) (by decide)).1,
   (save_load_roundtrip exScenario [] (by decide) (by decide)).2
     "missing" [] (by decide) rfl⟩

end EndpointSel
